import Mathlib

/-!
# Verification of the o365-mailHeadersParser header-parsing core

A shallow embedding, in Lean 4, of the header-parsing and header-decoding
functions of the `o365-mailHeadersParser` repository (`src/parser.js`,
`src/index.js` and the unnamed prototype file `src/unnamed/part_000`),
together with theorems settling the frozen claims C1–C10 about them.

Conventions of the embedding:
* JavaScript strings are Lean `String`s; character-level work is done on
  `List Char` (`String.data`), because every string primitive the code uses
  (`trim`, `split`, regex matches) is character-wise.
* JavaScript numbers that the code only ever uses as integers are `Int`.
* Code that can throw is modelled with `Except JsError`; the error payloads
  carry only the error kind (the JS message texts are quoted in comments).
* Dynamic values that can be either a string or a plain object (the
  canonical-header `value` slot of `parser.js`) are modelled with an
  explicit sum type, `CanonVal`.
-/

/-- The JavaScript exception kinds thrown by the embedded code.
`nonTermination` marks an input on which the JS code loops forever
(the `while(headerLines > 0)` loop of `parseSource`, see below). -/
inductive JsError where
  | typeError
  | rangeError
  | referenceError
  | nonTermination
deriving DecidableEq, Repr

/-!
## Character classes

The character classes of the regexes used by the source:
`\s` (JS whitespace, also the class trimmed by `String.prototype.trim`),
`\w` (ASCII word characters), the header-name class `[-a-z0-9]` with the
`i` flag, and `[-\w\d]` (the header-line name match).
-/

/-- JS `\s`: the WhiteSpace and LineTerminator productions
(space, tab, LF, VT, FF, CR, NBSP, BOM, and the Unicode space separators). -/
def isWS (c : Char) : Bool :=
  c = ' ' || c = '\t' || c = '\n' || c = '\r' ||
  c.toNat = 11 || c.toNat = 12 || c.toNat = 160 || c.toNat = 0x1680 ||
  (0x2000 ≤ c.toNat && c.toNat ≤ 0x200A) ||
  c.toNat = 0x2028 || c.toNat = 0x2029 || c.toNat = 0x202F ||
  c.toNat = 0x205F || c.toNat = 0x3000 || c.toNat = 0xFEFF

/-- JS `\w` = `[A-Za-z0-9_]`. -/
def isWordChar (c : Char) : Bool :=
  c = '_' || ('a' ≤ c && c ≤ 'z') || ('A' ≤ c && c ≤ 'Z') || ('0' ≤ c && c ≤ '9')

/-- The class of `/^[-a-z0-9]+$/i` (`isHeaderName` in `src/parser.js`):
dashes, letters of either case, digits.  Note: no underscore. -/
def isHeaderNameChar (c : Char) : Bool :=
  c = '-' || ('a' ≤ c && c ≤ 'z') || ('A' ≤ c && c ≤ 'Z') || ('0' ≤ c && c ≤ '9')

/-- The class of `[-\w\d]` in the header-line regex: word chars plus dash. -/
def isNameValueChar (c : Char) : Bool :=
  isWordChar c || c = '-'

/-- ASCII decimal digit (`\d`). -/
def isDigitChar (c : Char) : Bool :=
  '0' ≤ c && c ≤ '9'

/-- ASCII hexadecimal digit. -/
def isHexDigitChar (c : Char) : Bool :=
  isDigitChar c || ('a' ≤ c && c ≤ 'f') || ('A' ≤ c && c ≤ 'F')

/-- ASCII octal digit. -/
def isOctDigitChar (c : Char) : Bool :=
  '0' ≤ c && c ≤ '7'

/-- ASCII binary digit. -/
def isBinDigitChar (c : Char) : Bool :=
  c = '0' || c = '1'

/-!
## Whitespace trimming and collapsing

`String.prototype.trim` and the `replace(/[\s]+/g, ' ')` collapse used by
`sanitiseMailHeader`.
-/

/-- Remove trailing JS whitespace (the right half of `String.prototype.trim`). -/
def trimRight : List Char → List Char
  | [] => []
  | c :: rest =>
    match trimRight rest with
    | [] => if isWS c then [] else [c]
    | r => c :: r

/-- `String.prototype.trim`: leading then trailing JS whitespace removed. -/
def jsTrimList (l : List Char) : List Char :=
  trimRight (l.dropWhile isWS)

/-- `String.prototype.trim` on a `String`. -/
def jsTrim (s : String) : String :=
  ⟨jsTrimList s.data⟩

/-- `replace(/[\s]+/g, ' ')`: every maximal run of JS whitespace becomes one
space.  The flag records whether the previous character was part of a
whitespace run that has already emitted its space. -/
def collapseWS : Bool → List Char → List Char
  | _, [] => []
  | prevWS, c :: rest =>
    if isWS c then
      if prevWS then collapseWS true rest
      else ' ' :: collapseWS true rest
    else c :: collapseWS false rest

/-- `sanitiseMailHeader` of `src/unnamed/part_000` (lines 635–638):
`input.replace(/[\s]+/g, ' ').trim()`.  (The type check
`typeof input !== 'string'` is modelled separately; see `JsVal`.) -/
def sanitiseMailHeader (input : String) : String :=
  ⟨jsTrimList (collapseWS false input.data)⟩

/-- `sanitiseMailHeader` of `src/index.js` (lines 574–577):
`input.trim().replace(/[\s]+/g, ' ')` — same two steps, other order. -/
def sanitiseMailHeaderIdx (input : String) : String :=
  ⟨collapseWS false (jsTrimList input.data)⟩

/-- A dynamically-typed JS argument: either a string or some non-string value.
The code under scrutiny only ever branches on `typeof x !== 'string'`,
so all non-strings collapse into one constructor. -/
inductive JsVal where
  | str (s : String)
  | nonString
deriving DecidableEq, Repr

/-- `sanitiseMailHeader` including the `typeof input !== 'string'` guard,
which throws `TypeError('requires a string')`. -/
def sanitiseMailHeaderDyn : JsVal → Except JsError String
  | .str s => .ok (sanitiseMailHeader s)
  | .nonString => .error .typeError

/-!
## `sclMeaning`, `bclMeaning`, `compoundAuthenticationReason`
(`src/unnamed/part_000`, lines 671–751)
-/

/-- `sclMeaning(scl)` (`part_000` lines 720–731).  The JS body first runs the
input through `parseInt`, which is the identity on the integers modelled
here; the chain of early `return`s becomes an `if` chain. -/
def sclMeaning (scl : Int) : String :=
  if scl = -1 then "not scored"
  else if scl = 0 || scl = 1 then "not spam"
  else if scl = 5 || scl = 6 then "spam"
  else if scl = 9 then "high-confidence spam"
  else "UNKNOWN"

/-- The SCL table exactly as the spec words it (for comparison with the
code-derived `sclMeaning`). -/
def sclMeaningSpec (scl : Int) : String :=
  if scl = -1 then "not scored"
  else if scl = 0 || scl = 1 then "not spam"
  else if scl = 5 || scl = 6 then "spam"
  else if scl = 9 then "high-confidence spam"
  else "UNKNOWN"

/-- `bclMeaning(bcl)` (`part_000` lines 740–751), embedded faithfully:
the fourth guard of the JS source reads `if(vcl <= 9)` where `vcl` is an
undefined identifier, so reaching it throws
`ReferenceError: vcl is not defined`.  Note also that the second guard is
`bcl <= 3` (with 0 already taken), so every negative input lands there. -/
def bclMeaning (bcl : Int) : Except JsError String :=
  if bcl = 0 then .ok "not from bulk mail sender"
  else if bcl ≤ 3 then .ok "from bulk mail sender with few user complaints"
  else if bcl ≤ 7 then .ok "from bulk mail sender with some user complaints"
  else .error .referenceError

/-- `compoundAuthenticationReason(code)` (`part_000` lines 671–711).
The JS first coerces the argument with `String(code)`; the argument is
modelled as the resulting string.  The `case '6'` branch of the source
consists of a bare string literal with no `return`, so control falls
through to the final `UNKNOWN CODE` return; the embedding reproduces that. -/
def compoundAuthenticationReason (code : String) : String :=
  match code.data with
  | [d1, d2, d3] =>
    if isDigitChar d1 && isDigitChar d2 && isDigitChar d3 then
      if d1 = '0' then
        if d2 = '0' && d3 = '0' then
          "explicit failure - sending domain published DMARC/DKIM/SPF records"
        else if d2 = '0' && d3 = '1' then
          "implicit failure - sending domain published no DMARC/DKIM/SPF records, or non-enforcing records"
        else if d2 = '0' && d3 = '2' then
          "enforced failure - mail rule in place to enforce DMARC/DKIM/SPF even if the records are non-enforcing"
        else if d2 = '1' && d3 = '0' then
          "exempted failure - the message failed DMARC but the domain is on the allow-list"
        else "generic failure"
      else if d1 = '1' || d1 = '7' then "explicit pass"
      else if d1 = '2' then "implicit pass"
      else if d1 = '3' then "not checked"
      else if d1 = '4' || d1 = '9' then "skipped"
      else "UNKNOWN CODE: " ++ code
    else "INVALID CODE: " ++ code
  | _ => "INVALID CODE: " ++ code


/-!
## Header names and identities (`src/parser.js` lines 204–259)
-/

/-- ASCII lowercasing, as `String.prototype.toLowerCase` acts on the
characters admitted by `isHeaderName` (all ASCII). -/
def lowC (c : Char) : Char :=
  if 'A' ≤ c && c ≤ 'Z' then Char.ofNat (c.toNat + 32) else c

/-- `replaceAll('-', '_')`, character-wise. -/
def dashToUnderscore (c : Char) : Char :=
  if c = '-' then '_' else c

/-- `isHeaderName(val)` (`parser.js` lines 210–213): the value matches
`/^[-a-z0-9]+$/i`, i.e. it is non-empty and made of dashes, letters and
digits only. -/
def isHeaderName (s : String) : Bool :=
  !s.data.isEmpty && s.data.all isHeaderNameChar

/-- The normalization body of `headerNameToID`: lower-case, then replace
every dash with an underscore. -/
def headerIDOf (s : String) : String :=
  ⟨(s.data.map lowC).map dashToUnderscore⟩

/-- `headerNameToID(headerName)` (`parser.js` lines 249–259).  A non-string
argument throws a `TypeError` (outside this typed embedding); a string that
is not a valid header name throws
`RangeError('invalid header name, can only contain letters, numbers, and dashes')`. -/
def headerNameToID (headerName : String) : Except JsError String :=
  if isHeaderName headerName then .ok (headerIDOf headerName)
  else .error .rangeError

/-!
## Tokenizing the raw source (`src/parser.js` lines 301–363)
-/

/-- `split('\n')` on characters: the list of lines, newline separators
removed; an empty string yields one empty line. -/
def splitNL : List Char → List (List Char)
  | [] => [[]]
  | c :: rest =>
    if c = '\n' then [] :: splitNL rest
    else
      match splitNL rest with
      | [] => [[c]]
      | h :: t => (c :: h) :: t

/-- `/^\s*$/`: the line is entirely JS whitespace (or empty). -/
def isBlankLine (l : List Char) : Bool :=
  l.all isWS

/-- `/^\w/`: the line starts with a word character. -/
def headStartsWord : List Char → Bool
  | [] => false
  | c :: _ => isWordChar c

/-- `/^\s+/`: the line starts with whitespace. -/
def headStartsWS : List Char → Bool
  | [] => false
  | c :: _ => isWS c

/-- The single optional space of `[ ]?`. -/
def dropOneSpace : List Char → List Char
  | ' ' :: r => r
  | r => r

/-- `.` of a JS regex without the `s` flag: any character except a
LineTerminator (LF, CR, LS, PS). -/
def notLineTerm (c : Char) : Bool :=
  !(c = '\n' || c = '\r' || c.toNat = 0x2028 || c.toNat = 0x2029)

/-- The anchored match `/^([-\w\d]+):[ ]?(.*)/`: a non-empty run of
name characters, a colon, an optional single space, and then the greedy
`(.*)` capture — which stops at the first LineTerminator, so a `'\r'`
left at the end of a line by splitting a CRLF source on `'\n'` is *not*
part of the captured value. -/
def headerLineMatch (l : List Char) : Option (List Char × List Char) :=
  let nm := l.takeWhile isNameValueChar
  match l.dropWhile isNameValueChar with
  | d :: rest =>
    if d = ':' then
      if nm.isEmpty then none
      else some (nm, (dropOneSpace rest).takeWhile notLineTerm)
    else none
  | [] => none

/-- A raw mail header record (`HeaderObject` in the JSDoc of `parser.js`). -/
structure HeaderObject where
  name : String
  value : String
deriving DecidableEq, Repr

/-- `storeWIPHeader` (`parser.js` lines 315–324): append the in-progress
header to the output if it has a name, and in that case reset the
in-progress header. -/
def storeWIP (acc : List HeaderObject) (wip : HeaderObject) :
    List HeaderObject × HeaderObject :=
  if wip.name.length > 0 then (acc ++ [wip], ⟨"", ""⟩) else (acc, wip)

/-- The header-scanning loop of `parseSource` (`parser.js` lines 325–363):
stop at the first blank line; a line starting with a word character begins a
new header (storing the previous one; lines whose name fails
`isHeaderName`, or that do not match the header pattern, are skipped with a
console warning); a line starting with whitespace is a folded continuation
appended to the in-progress value after a single space; any other line is
skipped.  At the end the last in-progress header is stored. -/
def tokHeaders : List (List Char) → HeaderObject → List HeaderObject → List HeaderObject
  | [], wip, acc => (storeWIP acc wip).1
  | l :: rest, wip, acc =>
    if isBlankLine l then (storeWIP acc wip).1
    else if headStartsWord l then
      match storeWIP acc wip with
      | (acc2, wip2) =>
        match headerLineMatch l with
        | some (nm, v) =>
          if isHeaderName ⟨nm⟩ then tokHeaders rest ⟨⟨nm⟩, ⟨v⟩⟩ acc2
          else tokHeaders rest wip2 acc2
        | none => tokHeaders rest wip2 acc2
    else if headStartsWS l then
      tokHeaders rest ⟨wip.name, wip.value ++ " " ++ ⟨jsTrimList l⟩⟩ acc
    else tokHeaders rest wip acc

/-- Tokenize a list of source lines into header records, in source
(as-received, top-to-bottom) order. -/
def tokenize (lines : List (List Char)) : List HeaderObject :=
  tokHeaders lines ⟨"", ""⟩ []

/-- Re-render an LF-ended source with CRLF line endings: every `'\n'`
becomes `"\r\n"`. -/
def crlf : List Char → List Char
  | [] => []
  | c :: rest => (if c = '\n' then ['\r', '\n'] else [c]) ++ crlf rest

/-- Append a `'\r'` to every line except the last — exactly what splitting
`crlf source` on `'\n'` produces compared with splitting `source`. -/
def mapInitCR : List (List Char) → List (List Char)
  | [] => []
  | [l] => [l]
  | l :: rest => (l ++ ['\r']) :: mapInitCR rest

/-!
## JS numeric coercions

`parseInt` (used by the Forefront decoder) and the implicit
`Array > Number` comparison of the dead blank-line-stripping loop in
`parseSource`.
-/

/-- Numeric value of a run of decimal digits. -/
def natOfDecDigits (ds : List Char) : Nat :=
  ds.foldl (fun acc c => 10 * acc + (c.toNat - 48)) 0

/-- Numeric value of one hex digit. -/
def hexDigitVal (c : Char) : Nat :=
  if isDigitChar c then c.toNat - 48
  else if 'a' ≤ c && c ≤ 'f' then c.toNat - 87
  else c.toNat - 55

/-- Numeric value of a run of hex digits. -/
def natOfHexDigits (ds : List Char) : Nat :=
  ds.foldl (fun acc c => 16 * acc + hexDigitVal c) 0

/-- The digit run consumed by `parseInt` after the optional sign:
decimal by default, hexadecimal after a `0x`/`0X` prefix; `none` when no
digit can be consumed (JS `NaN`). -/
def parseIntDigits (r : List Char) : Option Nat :=
  match r with
  | '0' :: x :: rest =>
    if x = 'x' || x = 'X' then
      let ds := rest.takeWhile isHexDigitChar
      if ds.isEmpty then none else some (natOfHexDigits ds)
    else
      let ds := ('0' :: x :: rest).takeWhile isDigitChar
      if ds.isEmpty then none else some (natOfDecDigits ds)
  | _ =>
    let ds := r.takeWhile isDigitChar
    if ds.isEmpty then none else some (natOfDecDigits ds)

/-- `parseInt(string)` with no radix argument: skip leading whitespace, read
an optional sign and then the longest digit prefix; `none` is `NaN`. -/
def parseIntJS (l : List Char) : Option Int :=
  match l.dropWhile isWS with
  | '-' :: r => (parseIntDigits r).map (fun n => -(n : Int))
  | '+' :: r => (parseIntDigits r).map (fun n => (n : Int))
  | r => (parseIntDigits r).map (fun n => (n : Int))

/-- Split a numeric literal at its first `e`/`E` into mantissa and
exponent part. -/
def splitExp : List Char → List Char × Option (List Char)
  | [] => ([], none)
  | c :: rest =>
    if c = 'e' || c = 'E' then ([], some rest)
    else
      match splitExp rest with
      | (m, e) => (c :: m, e)

/-- The mantissa grammar of a JS string numeric literal:
`digits`, `digits.digits?`, or `.digits`. -/
def validMantissa (m : List Char) : Bool :=
  match m.dropWhile isDigitChar with
  | [] => !m.isEmpty
  | '.' :: frac =>
    frac.all isDigitChar && (!(m.takeWhile isDigitChar).isEmpty || !frac.isEmpty)
  | _ => false

/-- The exponent grammar: absent, or an optional sign and at least one digit. -/
def validExpPart : Option (List Char) → Bool
  | none => true
  | some e =>
    let e2 := match e with
      | '+' :: r => r
      | '-' :: r => r
      | r => r
    !e2.isEmpty && e2.all isDigitChar

/-- An unsigned decimal literal denoting a strictly positive number:
well-formed, and with a non-zero digit in the mantissa. -/
def decLitPos (r : List Char) : Bool :=
  match splitExp r with
  | (m, eo) =>
    validMantissa m && validExpPart eo && m.any (fun c => '1' ≤ c && c ≤ '9')

/-- An unsigned JS string numeric literal denoting a strictly positive
number: `Infinity`, a prefixed radix literal with a non-zero digit, or a
positive decimal literal. -/
def numLitPos (r : List Char) : Bool :=
  if r = "Infinity".data then true
  else
    match r with
    | '0' :: c :: rest =>
      if c = 'x' || c = 'X' then
        !rest.isEmpty && rest.all isHexDigitChar && rest.any (fun d => d ≠ '0')
      else if c = 'o' || c = 'O' then
        !rest.isEmpty && rest.all isOctDigitChar && rest.any (fun d => d ≠ '0')
      else if c = 'b' || c = 'B' then
        !rest.isEmpty && rest.all isBinDigitChar && rest.any (fun d => d ≠ '0')
      else decLitPos ('0' :: c :: rest)
    | r2 => decLitPos r2

/-- `Number(line) > 0` for a single line, as evaluated by the relational
comparison `headerLines > 0` when the array has exactly one element:
the array converts to that line, then to a number. -/
def jsNumGtZero (l : List Char) : Bool :=
  match jsTrimList l with
  | [] => false
  | '-' :: _ => false
  | '+' :: r => numLitPos r
  | r => numLitPos r

/-- The condition of the dead loop `while(headerLines > 0)` in `parseSource`
(`parser.js` lines 309–311).  The array is coerced via `join(',')`:
with two or more lines the result contains a comma and converts to `NaN`
(condition false); with no lines it converts to `0` (false); with exactly
one line the condition is `Number(line) > 0`.  When the condition is true
the single line is necessarily non-blank (a blank line converts to `0`),
so the body never shifts it and the loop never terminates. -/
def whileHeaderLinesGtZero (lines : List (List Char)) : Bool :=
  match lines with
  | [l] => jsNumGtZero l
  | _ => false

/-!
## JSON serialization

`JSON.stringify` as applied by `requireExactlyOne` to an array of header
objects of the shape `{name, value}`.
-/

/-- Lower-case hex digit for a value below 16. -/
def hexDigitLower (n : Nat) : Char :=
  if n = 0 then '0' else if n = 1 then '1' else if n = 2 then '2'
  else if n = 3 then '3' else if n = 4 then '4' else if n = 5 then '5'
  else if n = 6 then '6' else if n = 7 then '7' else if n = 8 then '8'
  else if n = 9 then '9' else if n = 10 then 'a' else if n = 11 then 'b'
  else if n = 12 then 'c' else if n = 13 then 'd' else if n = 14 then 'e'
  else 'f'

/-- JSON escaping of one character. -/
def jsonEscapeChar (c : Char) : List Char :=
  if c = '"' then ['\\', '"']
  else if c = '\\' then ['\\', '\\']
  else if c = '\n' then ['\\', 'n']
  else if c = '\r' then ['\\', 'r']
  else if c = '\t' then ['\\', 't']
  else if c.toNat = 8 then ['\\', 'b']
  else if c.toNat = 12 then ['\\', 'f']
  else if c.toNat < 32 then
    ['\\', 'u', '0', '0', hexDigitLower (c.toNat / 16), hexDigitLower (c.toNat % 16)]
  else [c]

/-- JSON escaping of a string (without the surrounding quotes). -/
def jsonEscape (s : String) : String :=
  ⟨(s.data.map jsonEscapeChar).flatten⟩

/-- `JSON.stringify` of one `{name, value}` header object. -/
def jsonHeaderObject (h : HeaderObject) : String :=
  "\x7b\"name\":\"" ++ jsonEscape h.name ++ "\",\"value\":\"" ++ jsonEscape h.value ++ "\"\x7d"

/-- Comma-join a list of strings. -/
def joinComma : List String → String
  | [] => ""
  | [s] => s
  | s :: r => s ++ "," ++ joinComma r

/-- `JSON.stringify` of an array of header objects. -/
def jsonStringifyHeaders (l : List HeaderObject) : String :=
  "[" ++ joinComma (l.map jsonHeaderObject) ++ "]"

/-!
## The header set (`src/parser.js` lines 40–60, 186–202, 283–419)
-/

/-- The dynamically-typed `value` slot of a canonical header: the code
stores a string in it (the initial `''` and the `JSON.stringify` result for
duplicates) but stores the whole raw header *object* in the single-instance
branch (`ans.canonicalByID[hID].value = hList[0]`, `parser.js` line 398). -/
inductive CanonVal where
  | str (s : String)
  | obj (h : HeaderObject)
deriving DecidableEq, Repr

/-- A canonical header as `requireExactlyOne` builds it: the JS object is
created as `{ name: n, value: '' }` and the `warning` / `hasError` keys are
only added on the error paths (absent keys are modelled as
`none` / `false`). -/
structure CanonicalHeader where
  name : String
  value : CanonVal
  warning : Option String
  hasError : Bool
deriving DecidableEq, Repr

/-- The parse result (`HeaderSet` in the JSDoc of `parser.js`).
The JS objects used as dictionaries (`byHeaderID`, `canonicalByID`) are
modelled as functions; a key that was never assigned maps to `[]` / `none`
(JS `undefined`). -/
structure HeaderSet where
  list : List HeaderObject
  listAsReceived : List HeaderObject
  byHeaderID : String → List HeaderObject
  customPrefix : String
  listMatchingCustomPrefix : List HeaderObject
  parsedirection : String
  canonicalByID : String → Option CanonicalHeader
  warnings : List String

/-- `generateBlankHeaderSet()` (`parser.js` lines 191–202). -/
def generateBlankHeaderSet : HeaderSet where
  list := []
  listAsReceived := []
  byHeaderID := fun _ => []
  customPrefix := ""
  listMatchingCustomPrefix := []
  parsedirection := ""
  canonicalByID := fun _ => none
  warnings := []

/-- One iteration of the indexing loop of `parseSource`
(`parser.js` lines 367–385): `unshift` the header onto the chronological
list, onto its by-ID bucket, and — when a custom prefix was supplied and
the header ID starts with the normalized prefix — onto the custom list. -/
def indexStep (customHeadersPrefix customPrefixID : String) (hs : HeaderSet)
    (h : HeaderObject) : HeaderSet :=
  let headerID := headerIDOf h.name
  { hs with
    list := h :: hs.list
    byHeaderID := fun id =>
      if id = headerID then h :: hs.byHeaderID id else hs.byHeaderID id
    listMatchingCustomPrefix :=
      if customHeadersPrefix ≠ "" && customPrefixID.data.isPrefixOf headerID.data
      then h :: hs.listMatchingCustomPrefix
      else hs.listMatchingCustomPrefix }

/-- `requireExactlyOne(n)` (`parser.js` lines 392–410), as a transformer of
the header set it closes over.  `findHeaders(n)` is the by-ID bucket (the
absent-key case already yields `[]` here).  Zero instances: empty string
value, warning `no <n> header found`, `hasError`, and push
`missing <n> header`.  One instance: the value slot receives the raw header
*object* (`hList[0]`).  More: the value slot receives
`JSON.stringify(hList)`, warning `<N> <n> headers found`, `hasError`, and
push `<N> <n> headers found, only one allowed`. -/
def requireExactlyOne (ans : HeaderSet) (n : String) : HeaderSet :=
  let hID := headerIDOf n
  let hList := ans.byHeaderID hID
  match hList with
  | [] =>
    { ans with
      canonicalByID := fun id =>
        if id = hID then some ⟨n, .str "", some ("no " ++ n ++ " header found"), true⟩
        else ans.canonicalByID id
      warnings := ans.warnings ++ ["missing " ++ n ++ " header"] }
  | [h] =>
    { ans with
      canonicalByID := fun id =>
        if id = hID then some ⟨n, .obj h, none, false⟩
        else ans.canonicalByID id }
  | l =>
    { ans with
      canonicalByID := fun id =>
        if id = hID then
          some ⟨n, .str (jsonStringifyHeaders l),
                some (toString l.length ++ " " ++ n ++ " headers found"), true⟩
        else ans.canonicalByID id
      warnings :=
        ans.warnings ++ [toString l.length ++ " " ++ n ++ " headers found, only one allowed"] }

/-- The canonical-header stage of `parseSource` (`parser.js` lines 412–415):
`requireExactlyOne` for `From`, `Subject` and `Date`, in that order. -/
def applyCanon (ans : HeaderSet) : HeaderSet :=
  requireExactlyOne (requireExactlyOne (requireExactlyOne ans "From") "Subject") "Date"

/-- All of `parseSource` (`parser.js` lines 292–419) up to, but not
including, the canonical-header stage.

Stays faithful to three slips in the source:
* line 303 computes `rawHeaders.replace(/\n\r|\r\n/g, '\n')` but discards
  the result (JS strings are immutable), so no line-ending normalization
  happens and the split below is on `'\n'` alone.  This is inconsequential:
  the `'\r'` left at the end of each line is outside the `(.*)` value
  capture (a regex `.` cannot match a LineTerminator), is trimmed from
  continuation lines, and is whitespace to the blank-line test;
* lines 309–311 compare the *array* `headerLines` to `0`; see
  `whileHeaderLinesGtZero` — the loop either does nothing or never
  terminates, and never strips a line;
* line 366 calls `headerNameToID(customHeadersPrefix)` unconditionally, so
  a prefix that is not a valid header name — including the default `''` —
  throws a `RangeError` even though the function is documented to throw
  only `TypeError`s on invalid arguments.

Also note that `ans.parsedirection` is never assigned: the direction
argument is validated and then unused. -/
def parsePre (source parseDirection customHeadersPrefix : String) :
    Except JsError HeaderSet :=
  if !(parseDirection = "inbound" || parseDirection = "outbound") then
    .error .typeError
  else
    let rawHeaders := jsTrim source
    let headerLines := splitNL rawHeaders.data
    if whileHeaderLinesGtZero headerLines then .error .nonTermination
    else
      let recs := tokenize headerLines
      match headerNameToID customHeadersPrefix with
      | .error e => .error e
      | .ok customPrefixID =>
        let base := { generateBlankHeaderSet with
                        customPrefix := customHeadersPrefix
                        listAsReceived := recs }
        .ok (recs.foldl (indexStep customHeadersPrefix customPrefixID) base)

/-- `parseSource(source, parseDirection, customHeadersPrefix)`
(`parser.js` lines 292–419): the pre-canonical stages followed by the
canonical-header stage. -/
def parseSource (source parseDirection customHeadersPrefix : String) :
    Except JsError HeaderSet :=
  (parsePre source parseDirection customHeadersPrefix).map applyCanon

/-- Extract the header set of a successful parse (blank set on error). -/
def getOk : Except JsError HeaderSet → HeaderSet
  | .ok hs => hs
  | .error _ => generateBlankHeaderSet

/-- Modelled from the spec: `takeOne(name, direction)` of §4.2.  No such
function exists anywhere under `src/` — `parseSource` in `src/parser.js`
validates its direction argument and never uses it, and no code path
selects a canonical instance for the recurring security headers — so the
tie-break is modelled from the spec text: the by-identity bucket is in
chronological order (oldest, i.e. closest to the bottom of the source,
first); `'outbound'` takes the first-received instance (the newest hop,
last of the bucket); `'inbound'` (or a single instance) takes the oldest
instance (head of the bucket). -/
def takeOne (hs : HeaderSet) (n : String) (direction : String) : Option HeaderObject :=
  let instances := hs.byHeaderID (headerIDOf n)
  if direction = "outbound" then instances.getLast? else instances.head?

/-!
## The Forefront spam report decoder
(`src/unnamed/part_000` lines 76–117 and 959–1012)
-/

/-- The `CAT` code table (`MAIL_CATEGORISATION_CODES`, `part_000`
lines 83–98). -/
def MAIL_CATEGORISATION_CODES : List (String × String) :=
  [("BULK", "bulk mail"),
   ("DIMP", "domain impersonation"),
   ("GIMP", "mailbox intelligence-derived assumed impersonation"),
   ("HPHSH", "high-confidence phishing"),
   ("HPHISH", "high-confidence phishing"),
   ("HSPM", "high confidence spam"),
   ("MALW", "malware"),
   ("PHSH", "phishing"),
   ("SPM", "spam"),
   ("SPOOF", "spoofing"),
   ("UIMP", "user impersonation"),
   ("AMP", "anti-malware"),
   ("SAP", "safe attachments"),
   ("OSPM", "out-bound spam")]

/-- An apostrophe, for table texts that contain one. -/
def apos : String :=
  ⟨[Char.ofNat 39]⟩

/-- The `SFV` code table (`SPAM_FILTER_ACTION_CODES`, `part_000`
lines 106–117).  The object literal in the source lists the key `SKB`
twice; in JS the later entry wins, so the table has the single `SKB`
entry with the second text. -/
def SPAM_FILTER_ACTION_CODES : List (String × String) :=
  [("BLK", "marked as bulk mail"),
   ("NSPM", "marked as not spam"),
   ("SFE", "scan skipped because sender on recipient" ++ apos ++ "s safe senders list"),
   ("SKA", "scan skipped due to allow-list"),
   ("SKB", "scan skipped because internal email"),
   ("SKN", "scan skipped because marked as not-spam by mail rule"),
   ("SKQ", "message released from quarantine"),
   ("SKS", "scan skipped because already marked as spam by mail rule"),
   ("SPM", "marked as spam")]

/-- Lookup in a code table (JS object property access; `none` is
`undefined`). -/
def lookupTable (t : List (String × String)) (k : String) : Option String :=
  (t.find? (fun p => p.1 = k)).map (fun p => p.2)

/-- Strip an anchored literal prefix, as the
`replace(/^X-Forefront-Antispam-Report:[ ]/, '')` calls do. -/
def stripAnchoredPrefix (pfx : List Char) (l : List Char) : List Char :=
  if pfx.isPrefixOf l then l.drop pfx.length else l

/-- Split on the `';'` character alone. -/
def splitOnSemi : List Char → List (List Char)
  | [] => [[]]
  | c :: rest =>
    if c = ';' then [] :: splitOnSemi rest
    else
      match splitOnSemi rest with
      | [] => [[c]]
      | h :: t => (c :: h) :: t

/-- `split(/;[ ]?/)`: split on semicolons, each of which consumes one
optional following space. -/
def splitSemiSpace (l : List Char) : List (List Char) :=
  match splitOnSemi l with
  | [] => []
  | h :: t => h :: t.map dropOneSpace

/-- The anchored field match `/^(\w+):(.*)$/` of the Forefront decoder
(note the colon separator). -/
def forefrontFieldMatch (l : List Char) : Option (String × String) :=
  let key := l.takeWhile isWordChar
  match l.dropWhile isWordChar with
  | ':' :: v => if key.isEmpty then none else some (⟨key⟩, ⟨v⟩)
  | _ => none

/-- The `header` dictionary of the decoder: parse every `KEY:value` field
(silently skipping empty and unparseable fields), later keys overwriting
earlier ones — so a lookup returns the *last* binding. -/
def forefrontFields (l : List Char) : List (String × String) :=
  (splitSemiSpace l).filterMap forefrontFieldMatch

/-- JS object read `header[k]` over the parsed fields: a later `KEY:value`
assignment overwrites an earlier one, so `find?` runs over the reversed
list and returns the last binding. -/
def getField (fields : List (String × String)) (k : String) : Option String :=
  (fields.reverse.find? (fun p => p.1 = k)).map (fun p => p.2)

/-- The `sender` sub-object of the Forefront report. -/
structure SenderInfo where
  countryCode : String
  smtpHeloString : Option String
  ip : String
  ipReputation : String
  ipReverseDNS : Option String
deriving DecidableEq, Repr

/-- The object returned by `parseForefrontSpamReportHeader` (without the
constant `spamReportHeaderSpecified: true`, which is represented by the
`some` of the surrounding `Option`). -/
structure ForefrontReport where
  messageCategorisation : Option String
  sender : SenderInfo
  spamScore : Int
  spamFilterAction : String
  spoofingDetected : String
  flaggedDueToUserComplaints : Bool
  releasedFromQuarantine : Bool
deriving DecidableEq, Repr

/-- `parseForefrontSpamReportHeader(input)` (`part_000` lines 959–1012).
Sanitises the input, strips the optional header-name prefix, returns the
empty object (`none`) on an empty value, then decodes the `KEY:value`
fields.  The `spamScore` is `parseInt(header.SCL) || -1`: `NaN` *and* `0`
are falsy, so both become `-1`. -/
def parseForefrontSpamReportHeader (input : String) : Option ForefrontReport :=
  let headerVal := sanitiseMailHeader input
  let headerVal : String :=
    ⟨stripAnchoredPrefix "X-Forefront-Antispam-Report: ".data headerVal.data⟩
  if headerVal = "" then none
  else
    let fields := forefrontFields headerVal.data
    some
      { messageCategorisation :=
          match getField fields "CAT" with
          | none => none
          | some cat =>
            match lookupTable MAIL_CATEGORISATION_CODES cat with
            | some meaning => some meaning
            | none => some cat
        sender :=
          { countryCode :=
              match getField fields "CTRY" with
              | some v => if v = "" then "UNKNOWN" else v
              | none => "UNKNOWN"
            smtpHeloString := getField fields "H"
            ip := (getField fields "CIP").getD ""
            ipReputation :=
              if getField fields "IPV" = some "CAL" then "allow-listed"
              else if getField fields "IPV" = some "NLI" then "not on any reputation lists"
              else "none"
            ipReverseDNS := getField fields "PTR" }
        spamScore :=
          match getField fields "SCL" with
          | none => -1
          | some s =>
            match parseIntJS s.data with
            | none => -1
            | some v => if v = 0 then -1 else v
        spamFilterAction :=
          match getField fields "SFV" with
          | none => "none"
          | some v => (lookupTable SPAM_FILTER_ACTION_CODES v).getD "none"
        spoofingDetected :=
          if getField fields "SFTY" = some "9.19" then "user"
          else if getField fields "SFTY" = some "9.20" then "domain"
          else "none"
        flaggedDueToUserComplaints := getField fields "SRV" = some "BULK"
        releasedFromQuarantine := getField fields "SFV" = some "SKQ" }

/-!
## Shape predicates for sanitised strings

Executable predicates used to state what `sanitiseMailHeader` guarantees.
-/

/-- No two adjacent characters are both JS whitespace. -/
def noAdjWS : List Char → Bool
  | [] => true
  | [_] => true
  | a :: b :: r => !(isWS a && isWS b) && noAdjWS (b :: r)

/-- Every whitespace character is a plain space. -/
def wsOnlySpace (l : List Char) : Bool :=
  l.all (fun c => !isWS c || c = ' ')

/-- Neither the first nor the last character is JS whitespace. -/
def noEdgeWS (l : List Char) : Bool :=
  (match l.head? with
   | none => true
   | some c => !isWS c) &&
  (match l.getLast? with
   | none => true
   | some c => !isWS c)

/-!
## Lemmas: whitespace collapsing and trimming

Facts about `collapseWS`, `trimRight`, `dropWhile` and `jsTrimList` needed
for the claims about `sanitiseMailHeader`.
-/

theorem noAdjWS_cons (a : Char) (l : List Char) :
    noAdjWS (a :: l) =
      ((match l.head? with
        | none => true
        | some b => !(isWS a && isWS b)) && noAdjWS l) := by
  cases l <;> simp [noAdjWS]

theorem noAdjWS_tail {a : Char} {l : List Char} (h : noAdjWS (a :: l) = true) :
    noAdjWS l = true := by
  rw [noAdjWS_cons, Bool.and_eq_true] at h
  exact h.2

theorem collapseWS_cons_ws {c : Char} (rest : List Char) (hws : isWS c = true) :
    collapseWS true (c :: rest) = collapseWS true rest ∧
    collapseWS false (c :: rest) = ' ' :: collapseWS true rest := by
  constructor <;> simp [collapseWS, hws]

theorem collapseWS_cons_not {c : Char} (b : Bool) (rest : List Char)
    (hws : isWS c = false) :
    collapseWS b (c :: rest) = c :: collapseWS false rest := by
  cases b <;> simp [collapseWS, hws]

theorem collapseWS_wsOnlySpace : ∀ (b : Bool) (l : List Char),
    wsOnlySpace (collapseWS b l) = true := by
  intro b l
  induction l generalizing b with
  | nil => rfl
  | cons c rest ih =>
    cases hws : isWS c with
    | false =>
      rw [collapseWS_cons_not b rest hws]
      simp only [wsOnlySpace, List.all_cons, Bool.and_eq_true]
      exact ⟨by simp [hws], ih false⟩
    | true =>
      cases b with
      | true =>
        rw [(collapseWS_cons_ws rest hws).1]
        exact ih true
      | false =>
        rw [(collapseWS_cons_ws rest hws).2]
        simp only [wsOnlySpace, List.all_cons, Bool.and_eq_true]
        exact ⟨by decide, ih true⟩

theorem collapseWS_true_head : ∀ (l : List Char) (c : Char),
    (collapseWS true l).head? = some c → isWS c = false := by
  intro l
  induction l with
  | nil => intro c h; simp [collapseWS] at h
  | cons a rest ih =>
    intro c h
    cases hws : isWS a with
    | true =>
      rw [(collapseWS_cons_ws rest hws).1] at h
      exact ih c h
    | false =>
      rw [collapseWS_cons_not true rest hws] at h
      simp at h
      rw [← h]
      exact hws

theorem collapseWS_noAdjWS : ∀ (b : Bool) (l : List Char),
    noAdjWS (collapseWS b l) = true := by
  intro b l
  induction l generalizing b with
  | nil => rfl
  | cons c rest ih =>
    cases hws : isWS c with
    | false =>
      rw [collapseWS_cons_not b rest hws, noAdjWS_cons, Bool.and_eq_true]
      refine ⟨?_, ih false⟩
      cases (collapseWS false rest).head? <;> simp [hws]
    | true =>
      cases b with
      | true =>
        rw [(collapseWS_cons_ws rest hws).1]
        exact ih true
      | false =>
        rw [(collapseWS_cons_ws rest hws).2, noAdjWS_cons, Bool.and_eq_true]
        refine ⟨?_, ih true⟩
        cases hh : (collapseWS true rest).head? with
        | none => simp
        | some d => simp [collapseWS_true_head rest d hh]

theorem collapseWS_eq_nil : ∀ (b : Bool) (l : List Char),
    collapseWS b l = [] → l.all isWS = true := by
  intro b l
  induction l generalizing b with
  | nil => intro _; rfl
  | cons c rest ih =>
    intro h
    cases hws : isWS c with
    | false => rw [collapseWS_cons_not b rest hws] at h; simp at h
    | true =>
      cases b with
      | false => rw [(collapseWS_cons_ws rest hws).2] at h; simp at h
      | true =>
        rw [(collapseWS_cons_ws rest hws).1] at h
        simp only [List.all_cons, Bool.and_eq_true]
        exact ⟨hws, ih true h⟩

theorem collapseWS_id : ∀ (l : List Char),
    wsOnlySpace l = true → noAdjWS l = true →
    (collapseWS false l = l ∧
      ((∀ c, l.head? = some c → isWS c = false) → collapseWS true l = l)) := by
  intro l
  induction l with
  | nil => exact fun _ _ => ⟨rfl, fun _ => rfl⟩
  | cons c rest ih =>
    intro hsp hadj
    have hsp' : wsOnlySpace rest = true := by
      simp only [wsOnlySpace, List.all_cons, Bool.and_eq_true] at hsp
      exact hsp.2
    have hadj' : noAdjWS rest = true := noAdjWS_tail hadj
    cases hws : isWS c with
    | false =>
      have hstep : ∀ b, collapseWS b (c :: rest) = c :: collapseWS false rest :=
        fun b => collapseWS_cons_not b rest hws
      have hrest : collapseWS false rest = rest := (ih hsp' hadj').1
      exact ⟨by rw [hstep, hrest], fun _ => by rw [hstep, hrest]⟩
    | true =>
      have hcsp : c = ' ' := by
        simp only [wsOnlySpace, List.all_cons, Bool.and_eq_true] at hsp
        have := hsp.1
        rw [hws] at this
        simpa using this
      have hresthead : ∀ d, rest.head? = some d → isWS d = false := by
        intro d hd
        rw [noAdjWS_cons, Bool.and_eq_true] at hadj
        have := hadj.1
        rw [hd, hws] at this
        simpa using this
      have htrue : collapseWS true rest = rest := (ih hsp' hadj').2 hresthead
      constructor
      · rw [(collapseWS_cons_ws rest hws).2, htrue, hcsp]
      · intro hhead
        have := hhead c rfl
        rw [hws] at this
        simp at this

theorem collapseWS_head_not (l : List Char)
    (h : ∀ c, l.head? = some c → isWS c = false) :
    ∀ c, (collapseWS false l).head? = some c → isWS c = false := by
  cases l with
  | nil => intro c hc; simp [collapseWS] at hc
  | cons a rest =>
    have ha : isWS a = false := h a rfl
    intro c hc
    rw [collapseWS_cons_not false rest ha] at hc
    simp at hc
    rw [← hc]
    exact ha

theorem collapseWS_getLast_not : ∀ (b : Bool) (l : List Char),
    (∀ c, l.getLast? = some c → isWS c = false) →
    ∀ c, (collapseWS b l).getLast? = some c → isWS c = false := by
  intro b l
  induction l generalizing b with
  | nil => intro _ c hc; simp [collapseWS] at hc
  | cons a rest ih =>
    intro hlast c hc
    cases rest with
    | nil =>
      have ha : isWS a = false := hlast a rfl
      rw [collapseWS_cons_not b [] ha] at hc
      simp [collapseWS] at hc
      rw [← hc]
      exact ha
    | cons a2 rest2 =>
      have hlast' : ∀ d, (a2 :: rest2).getLast? = some d → isWS d = false := by
        intro d hd
        exact hlast d (by rw [List.getLast?_cons_cons]; exact hd)
      have hne : ∀ b2, collapseWS b2 (a2 :: rest2) ≠ [] := by
        intro b2 hnil
        have hall := collapseWS_eq_nil b2 (a2 :: rest2) hnil
        have hmem : ∀ d ∈ (a2 :: rest2), isWS d = true := by
          intro d hd
          exact List.all_eq_true.mp hall d hd
        obtain ⟨d, hd⟩ : ∃ d, (a2 :: rest2).getLast? = some d := by
          cases hg : (a2 :: rest2).getLast? with
          | none => simp at hg
          | some d => exact ⟨d, rfl⟩
        have h1 : isWS d = false := hlast' d hd
        have h2 : isWS d = true := hmem d (List.mem_of_getLast?_eq_some hd)
        rw [h1] at h2
        exact absurd h2 (by simp)
      cases hws : isWS a with
      | false =>
        rw [collapseWS_cons_not b (a2 :: rest2) hws] at hc
        cases hcol : collapseWS false (a2 :: rest2) with
        | nil => exact absurd hcol (hne false)
        | cons x xs =>
          rw [hcol, List.getLast?_cons_cons] at hc
          exact ih false hlast' c (by rw [hcol]; exact hc)
      | true =>
        cases b with
        | true =>
          rw [(collapseWS_cons_ws (a2 :: rest2) hws).1] at hc
          exact ih true hlast' c hc
        | false =>
          rw [(collapseWS_cons_ws (a2 :: rest2) hws).2] at hc
          cases hcol : collapseWS true (a2 :: rest2) with
          | nil => exact absurd hcol (hne true)
          | cons x xs =>
            rw [hcol, List.getLast?_cons_cons] at hc
            exact ih true hlast' c (by rw [hcol]; exact hc)

theorem trimRight_head? : ∀ (l : List Char) (c : Char),
    (trimRight l).head? = some c → l.head? = some c := by
  intro l c
  cases l with
  | nil => intro h; simp [trimRight] at h
  | cons a rest =>
    intro h
    unfold trimRight at h
    cases htr : trimRight rest with
    | nil =>
      rw [htr] at h
      by_cases hws : isWS a = true
      · simp [hws] at h
      · have hws' : isWS a = false := by simpa using hws
        simp [hws'] at h
        simp [h]
    | cons x xs =>
      rw [htr] at h
      simp at h
      simp [h]

theorem trimRight_getLast_not : ∀ (l : List Char) (c : Char),
    (trimRight l).getLast? = some c → isWS c = false := by
  intro l
  induction l with
  | nil => intro c h; simp [trimRight] at h
  | cons a rest ih =>
    intro c h
    unfold trimRight at h
    cases htr : trimRight rest with
    | nil =>
      rw [htr] at h
      by_cases hws : isWS a = true
      · simp [hws] at h
      · have hws' : isWS a = false := by simpa using hws
        simp [hws'] at h
        rw [← h]
        exact hws'
    | cons x xs =>
      rw [htr] at h
      rw [List.getLast?_cons_cons] at h
      exact ih c (by rw [htr]; exact h)

theorem trimRight_eq_self : ∀ (l : List Char),
    (∀ c, l.getLast? = some c → isWS c = false) → trimRight l = l := by
  intro l
  induction l with
  | nil => intro _; rfl
  | cons a rest ih =>
    intro hlast
    cases rest with
    | nil =>
      have ha : isWS a = false := hlast a rfl
      simp [trimRight, ha]
    | cons b rest2 =>
      have hlast' : ∀ c, (b :: rest2).getLast? = some c → isWS c = false := by
        intro c hc
        exact hlast c (by rw [List.getLast?_cons_cons]; exact hc)
      have hrest : trimRight (b :: rest2) = b :: rest2 := ih hlast'
      unfold trimRight
      rw [hrest]

theorem trimRight_mem : ∀ (l : List Char) (c : Char), c ∈ trimRight l → c ∈ l := by
  intro l
  induction l with
  | nil => intro c h; simp [trimRight] at h
  | cons a rest ih =>
    intro c h
    unfold trimRight at h
    cases htr : trimRight rest with
    | nil =>
      rw [htr] at h
      by_cases hws : isWS a = true
      · simp [hws] at h
      · have hws' : isWS a = false := by simpa using hws
        simp [hws'] at h
        simp [h]
    | cons x xs =>
      rw [htr] at h
      rcases List.mem_cons.mp h with h1 | h2
      · simp [h1]
      · have : c ∈ trimRight rest := by rw [htr]; exact h2
        exact List.mem_cons_of_mem a (ih c this)

theorem trimRight_noAdjWS : ∀ (l : List Char),
    noAdjWS l = true → noAdjWS (trimRight l) = true := by
  intro l
  induction l with
  | nil => intro _; rfl
  | cons a rest ih =>
    intro hadj
    have hadj' : noAdjWS rest = true := noAdjWS_tail hadj
    unfold trimRight
    cases htr : trimRight rest with
    | nil =>
      by_cases hws : isWS a = true
      · simp [hws, noAdjWS]
      · have hws' : isWS a = false := by simpa using hws
        simp [hws', noAdjWS]
    | cons x xs =>
      rw [noAdjWS_cons, Bool.and_eq_true]
      constructor
      · have hx : rest.head? = some x :=
          trimRight_head? rest x (by rw [htr]; rfl)
        rw [noAdjWS_cons, Bool.and_eq_true] at hadj
        have := hadj.1
        rw [hx] at this
        simpa using this
      · rw [← htr]
        exact ih hadj'

theorem dropWhileWS_head_not (l : List Char) :
    ∀ c, (l.dropWhile isWS).head? = some c → isWS c = false := by
  intro c hc
  have := List.head?_dropWhile_not isWS l
  rw [hc] at this
  simpa using this

theorem dropWhileWS_eq_self (l : List Char)
    (h : ∀ c, l.head? = some c → isWS c = false) :
    l.dropWhile isWS = l := by
  cases l with
  | nil => rfl
  | cons a rest =>
    have ha : isWS a = false := h a rfl
    simp [List.dropWhile_cons, ha]

theorem dropWhileWS_noAdjWS : ∀ (l : List Char),
    noAdjWS l = true → noAdjWS (l.dropWhile isWS) = true := by
  intro l
  induction l with
  | nil => intro _; rfl
  | cons a rest ih =>
    intro hadj
    by_cases hws : isWS a = true
    · rw [List.dropWhile_cons_of_pos hws]
      exact ih (noAdjWS_tail hadj)
    · have hws' : isWS a = false := by simpa using hws
      rw [List.dropWhile_cons_of_neg (by simp [hws'])]
      exact hadj

theorem jsTrimList_head_not (l : List Char) :
    ∀ c, (jsTrimList l).head? = some c → isWS c = false := by
  intro c hc
  exact dropWhileWS_head_not l c (trimRight_head? _ c hc)

theorem jsTrimList_getLast_not (l : List Char) :
    ∀ c, (jsTrimList l).getLast? = some c → isWS c = false := by
  intro c hc
  exact trimRight_getLast_not _ c hc

theorem jsTrimList_noAdjWS (l : List Char) (h : noAdjWS l = true) :
    noAdjWS (jsTrimList l) = true :=
  trimRight_noAdjWS _ (dropWhileWS_noAdjWS l h)

theorem jsTrimList_mem (l : List Char) (c : Char) (h : c ∈ jsTrimList l) : c ∈ l := by
  have h1 : c ∈ l.dropWhile isWS := trimRight_mem _ c h
  exact List.Sublist.mem h1 (List.dropWhile_sublist isWS)

theorem jsTrimList_wsOnlySpace (l : List Char) (h : wsOnlySpace l = true) :
    wsOnlySpace (jsTrimList l) = true := by
  simp only [wsOnlySpace, List.all_eq_true] at h ⊢
  intro c hc
  exact h c (jsTrimList_mem l c hc)

theorem jsTrimList_eq_self (l : List Char)
    (h1 : ∀ c, l.head? = some c → isWS c = false)
    (h2 : ∀ c, l.getLast? = some c → isWS c = false) :
    jsTrimList l = l := by
  unfold jsTrimList
  rw [dropWhileWS_eq_self l h1]
  exact trimRight_eq_self l h2

theorem jsTrimList_idem (l : List Char) :
    jsTrimList (jsTrimList l) = jsTrimList l :=
  jsTrimList_eq_self _ (jsTrimList_head_not l) (jsTrimList_getLast_not l)

theorem noEdgeWS_of (l : List Char)
    (h1 : ∀ c, l.head? = some c → isWS c = false)
    (h2 : ∀ c, l.getLast? = some c → isWS c = false) :
    noEdgeWS l = true := by
  unfold noEdgeWS
  rw [Bool.and_eq_true]
  constructor
  · cases hh : l.head? with
    | none => rfl
    | some c => simp [h1 c hh]
  · cases hg : l.getLast? with
    | none => rfl
    | some c => simp [h2 c hg]

/-!
## Claim theorems
-/

/-- C10: `sanitiseMailHeader` is an idempotent normalizer.  For every string,
applying it twice equals applying it once; the result has no leading or
trailing whitespace, no two adjacent whitespace characters (so every
whitespace run has collapsed to length one), and every remaining whitespace
character is a plain space.  The same holds for the `src/index.js` copy
(which trims before collapsing), and the dynamic wrapper throws a
`TypeError` exactly on non-string input. -/
theorem c10_sanitiseMailHeader_idempotent_normalizer :
    (∀ s : String, sanitiseMailHeader (sanitiseMailHeader s) = sanitiseMailHeader s) ∧
    (∀ s : String, noEdgeWS (sanitiseMailHeader s).data = true) ∧
    (∀ s : String, noAdjWS (sanitiseMailHeader s).data = true) ∧
    (∀ s : String, wsOnlySpace (sanitiseMailHeader s).data = true) ∧
    (∀ s : String, sanitiseMailHeaderIdx (sanitiseMailHeaderIdx s) = sanitiseMailHeaderIdx s) ∧
    (∀ s : String, noEdgeWS (sanitiseMailHeaderIdx s).data = true) ∧
    (∀ s : String, noAdjWS (sanitiseMailHeaderIdx s).data = true) ∧
    (∀ s : String, wsOnlySpace (sanitiseMailHeaderIdx s).data = true) ∧
    (∀ v : JsVal, sanitiseMailHeaderDyn v = .error .typeError ↔ v = .nonString) := by
  have hdata : ∀ l : List Char, (String.mk l).data = l := fun _ => rfl
  -- facts about t := jsTrimList (collapseWS false l)
  have tsp : ∀ l, wsOnlySpace (jsTrimList (collapseWS false l)) = true :=
    fun l => jsTrimList_wsOnlySpace _ (collapseWS_wsOnlySpace false l)
  have tadj : ∀ l, noAdjWS (jsTrimList (collapseWS false l)) = true :=
    fun l => jsTrimList_noAdjWS _ (collapseWS_noAdjWS false l)
  have thead : ∀ l c, (jsTrimList (collapseWS false l)).head? = some c → isWS c = false :=
    fun l => jsTrimList_head_not _
  have tlast : ∀ l c, (jsTrimList (collapseWS false l)).getLast? = some c → isWS c = false :=
    fun l => jsTrimList_getLast_not _
  -- facts about u := collapseWS false (jsTrimList l)
  have usp : ∀ l, wsOnlySpace (collapseWS false (jsTrimList l)) = true :=
    fun l => collapseWS_wsOnlySpace false _
  have uadj : ∀ l, noAdjWS (collapseWS false (jsTrimList l)) = true :=
    fun l => collapseWS_noAdjWS false _
  have uhead : ∀ l c, (collapseWS false (jsTrimList l)).head? = some c → isWS c = false :=
    fun l => collapseWS_head_not _ (jsTrimList_head_not l)
  have ulast : ∀ l c, (collapseWS false (jsTrimList l)).getLast? = some c → isWS c = false :=
    fun l => collapseWS_getLast_not false _ (jsTrimList_getLast_not l)
  refine ⟨?_, ?_, ?_, ?_, ?_, ?_, ?_, ?_, ?_⟩
  · intro s
    show (⟨jsTrimList (collapseWS false (jsTrimList (collapseWS false s.data)))⟩ : String)
        = ⟨jsTrimList (collapseWS false s.data)⟩
    rw [(collapseWS_id _ (tsp s.data) (tadj s.data)).1, jsTrimList_idem]
  · intro s
    exact noEdgeWS_of _ (thead s.data) (tlast s.data)
  · intro s
    exact tadj s.data
  · intro s
    exact tsp s.data
  · intro s
    show (⟨collapseWS false (jsTrimList (collapseWS false (jsTrimList s.data)))⟩ : String)
        = ⟨collapseWS false (jsTrimList s.data)⟩
    rw [jsTrimList_eq_self _ (uhead s.data) (ulast s.data),
        (collapseWS_id _ (usp s.data) (uadj s.data)).1]
  · intro s
    exact noEdgeWS_of _ (uhead s.data) (ulast s.data)
  · intro s
    exact uadj s.data
  · intro s
    exact usp s.data
  · intro v
    cases v with
    | str s => simp [sanitiseMailHeaderDyn]
    | nonString => simp [sanitiseMailHeaderDyn]

/-- C1 (takeOne modelled from the spec, which `src/` does not implement):
over any parsed header set, when the chronological by-identity bucket for a
header holds two or more instances — oldest (bottom of the source) first,
newest (top) last — `takeOne` with direction `inbound` selects the oldest
instance and with `outbound` the newest; a single-instance bucket yields
that instance for either direction. -/
theorem c1_takeOne_direction_tiebreak :
    (∀ (hs : HeaderSet) (n : String) (v1 v2 : HeaderObject) (mid : List HeaderObject),
      hs.byHeaderID (headerIDOf n) = v1 :: (mid ++ [v2]) →
      takeOne hs n "inbound" = some v1 ∧ takeOne hs n "outbound" = some v2) ∧
    (∀ (hs : HeaderSet) (n : String) (v : HeaderObject),
      hs.byHeaderID (headerIDOf n) = [v] →
      takeOne hs n "inbound" = some v ∧ takeOne hs n "outbound" = some v) := by
  constructor
  · intro hs n v1 v2 mid h
    unfold takeOne
    rw [h]
    constructor
    · simp
    · show (if ("outbound" : String) = "outbound"
              then (v1 :: (mid ++ [v2])).getLast?
              else (v1 :: (mid ++ [v2])).head?) = some v2
      rw [if_pos rfl]
      exact List.getLast?_concat (v1 :: mid)
  · intro hs n v h
    unfold takeOne
    rw [h]
    constructor <;> simp

/-- Witness for C1: a parsed source with two `Authentication-Results`
instances, newest (`spf=pass`) at the top and oldest (`spf=fail`) at the
bottom; `inbound` selects the oldest and `outbound` the newest. -/
theorem c1_takeOne_direction_tiebreak_witness :
    takeOne (getOk (parseSource
        "Authentication-Results: spf=pass\nAuthentication-Results: spf=fail"
        "inbound" "x")) "Authentication-Results" "inbound"
      = some ⟨"Authentication-Results", "spf=fail"⟩ ∧
    takeOne (getOk (parseSource
        "Authentication-Results: spf=pass\nAuthentication-Results: spf=fail"
        "inbound" "x")) "Authentication-Results" "outbound"
      = some ⟨"Authentication-Results", "spf=pass"⟩ :=
  c1_takeOne_direction_tiebreak.1
    (getOk (parseSource
      "Authentication-Results: spf=pass\nAuthentication-Results: spf=fail"
      "inbound" "x"))
    "Authentication-Results"
    ⟨"Authentication-Results", "spf=fail"⟩
    ⟨"Authentication-Results", "spf=pass"⟩
    []
    (by decide)

/-- C2, counterexample: with exactly one `From` instance the code stores the
whole raw header *object* in the canonical `value` slot
(`ans.canonicalByID[hID].value = hList[0]`, `parser.js` line 398), not the
instance's value string as the claim states. -/
theorem c2_counterexample_value_is_object :
    (getOk (parseSource "From: alice@example.com\nSubject: hi\nDate: d"
        "inbound" "x")).canonicalByID "from"
      = some ⟨"From", .obj ⟨"From", "alice@example.com"⟩, none, false⟩ ∧
    CanonVal.obj ⟨"From", "alice@example.com"⟩ ≠ CanonVal.str "alice@example.com" := by
  exact ⟨by decide, by decide⟩

/-- C4 (code bug): with all-string arguments and a valid direction,
`parseSource` still throws.  Line 366 of `parser.js` runs
`headerNameToID(customHeadersPrefix)` unconditionally, and `''` — the
documented default — is not a valid header name, so the call throws a
`RangeError` instead of returning a header set.  A bad direction throws the
documented `TypeError`, and a valid non-empty prefix parses fine. -/
theorem c4_parseSource_throws_on_default_prefix :
    parseSource "From: bob@example.com" "inbound" "" = .error .rangeError ∧
    parseSource "From: bob@example.com" "sideways" "" = .error .typeError ∧
    (∃ hs, parseSource "From: bob@example.com" "inbound" "x" = .ok hs) := by
  refine ⟨rfl, rfl, ⟨getOk (parseSource "From: bob@example.com" "inbound" "x"), rfl⟩⟩

/-- C6: `sclMeaning` implements exactly the fixed SCL table of the spec:
−1 → not scored, 0/1 → not spam, 5/6 → spam, 9 → high-confidence spam,
everything else → UNKNOWN. -/
theorem c6_sclMeaning_table :
    (∀ n : Int, sclMeaning n = sclMeaningSpec n) ∧
    sclMeaning (-1) = "not scored" ∧
    sclMeaning 0 = "not spam" ∧ sclMeaning 1 = "not spam" ∧
    sclMeaning 5 = "spam" ∧ sclMeaning 6 = "spam" ∧
    sclMeaning 9 = "high-confidence spam" ∧
    sclMeaning 42 = "UNKNOWN" ∧ sclMeaning 2 = "UNKNOWN" ∧
    sclMeaning (-2) = "UNKNOWN" := by
  exact ⟨fun n => rfl, rfl, rfl, rfl, rfl, rfl, rfl, rfl, rfl, rfl⟩

/-- C7 (code bug): `bclMeaning` is not the claimed total table.  The guard
for 8–9 reads `if(vcl <= 9)` with `vcl` undefined, so every input above 7
throws a `ReferenceError` instead of returning the many-complaints phrase
(or UNKNOWN above 9); and because the second guard is `bcl <= 3`, every
negative input — including the −2 not-supplied sentinel — returns the
few-complaints phrase instead of UNKNOWN. -/
theorem c7_bclMeaning_behaviour :
    bclMeaning 8 = .error .referenceError ∧
    bclMeaning 9 = .error .referenceError ∧
    bclMeaning 10 = .error .referenceError ∧
    bclMeaning (-2) = .ok "from bulk mail sender with few user complaints" ∧
    bclMeaning 0 = .ok "not from bulk mail sender" ∧
    bclMeaning 2 = .ok "from bulk mail sender with few user complaints" ∧
    bclMeaning 5 = .ok "from bulk mail sender with some user complaints" := by
  exact ⟨rfl, rfl, rfl, rfl, rfl, rfl, rfl⟩

/-- C8 (code bug): `compoundAuthenticationReason` matches the claimed table
on every category except leading digit 6: the `case '6'` branch evaluates
the exempted-failure string without returning it, so codes `6xx` fall
through to the `UNKNOWN CODE` result. -/
theorem c8_compauth_reason_table :
    compoundAuthenticationReason "600" = "UNKNOWN CODE: 600" ∧
    compoundAuthenticationReason "600"
      ≠ "exempted failure - the message failed compauth, but the domain is on the allow-list" ∧
    compoundAuthenticationReason "000"
      = "explicit failure - sending domain published DMARC/DKIM/SPF records" ∧
    compoundAuthenticationReason "001"
      = "implicit failure - sending domain published no DMARC/DKIM/SPF records, or non-enforcing records" ∧
    compoundAuthenticationReason "002"
      = "enforced failure - mail rule in place to enforce DMARC/DKIM/SPF even if the records are non-enforcing" ∧
    compoundAuthenticationReason "010"
      = "exempted failure - the message failed DMARC but the domain is on the allow-list" ∧
    compoundAuthenticationReason "005" = "generic failure" ∧
    compoundAuthenticationReason "100" = "explicit pass" ∧
    compoundAuthenticationReason "700" = "explicit pass" ∧
    compoundAuthenticationReason "200" = "implicit pass" ∧
    compoundAuthenticationReason "300" = "not checked" ∧
    compoundAuthenticationReason "400" = "skipped" ∧
    compoundAuthenticationReason "900" = "skipped" ∧
    compoundAuthenticationReason "60" = "INVALID CODE: 60" ∧
    compoundAuthenticationReason "abc" = "INVALID CODE: abc" := by
  refine ⟨rfl, by decide, rfl, rfl, rfl, rfl, rfl, rfl, rfl, rfl, rfl, rfl, rfl, rfl, rfl⟩

/-- C9 (code bug): on the example header the Forefront decoder produces the
claimed categorisation, score, quarantine flag, sender IP and country; but
`spamScore` is computed as `parseInt(header.SCL) || -1`, and `0` is falsy
in JS, so the parseable field `SCL:0` yields −1 — not 0 as the claim's
"exactly when absent or unparseable" requires (a non-zero parseable SCL
comes through unchanged). -/
theorem c9_forefront_decoder :
    (parseForefrontSpamReportHeader
        "X-Forefront-Antispam-Report: CAT:SPM;SCL:9;SFV:SKQ;CIP:1.2.3.4;CTRY:DE").map
        (fun r => r.messageCategorisation) = some (some "spam") ∧
    (parseForefrontSpamReportHeader
        "X-Forefront-Antispam-Report: CAT:SPM;SCL:9;SFV:SKQ;CIP:1.2.3.4;CTRY:DE").map
        (fun r => r.spamScore) = some 9 ∧
    (parseForefrontSpamReportHeader
        "X-Forefront-Antispam-Report: CAT:SPM;SCL:9;SFV:SKQ;CIP:1.2.3.4;CTRY:DE").map
        (fun r => r.releasedFromQuarantine) = some true ∧
    (parseForefrontSpamReportHeader
        "X-Forefront-Antispam-Report: CAT:SPM;SCL:9;SFV:SKQ;CIP:1.2.3.4;CTRY:DE").map
        (fun r => r.sender.ip) = some "1.2.3.4" ∧
    (parseForefrontSpamReportHeader
        "X-Forefront-Antispam-Report: CAT:SPM;SCL:9;SFV:SKQ;CIP:1.2.3.4;CTRY:DE").map
        (fun r => r.sender.countryCode) = some "DE" ∧
    (parseForefrontSpamReportHeader "SCL:0").map (fun r => r.spamScore) = some (-1) ∧
    (parseForefrontSpamReportHeader "SCL:2").map (fun r => r.spamScore) = some 2 ∧
    (parseForefrontSpamReportHeader "CAT:SPM").map (fun r => r.spamScore) = some (-1) := by
  exact ⟨by decide, by decide, by decide, by decide, by decide, by decide, by decide, by decide⟩

theorem requireExactlyOne_byHeaderID (ans : HeaderSet) (n : String) :
    (requireExactlyOne ans n).byHeaderID = ans.byHeaderID := by
  simp only [requireExactlyOne]
  split <;> rfl

theorem requireExactlyOne_listAsReceived (ans : HeaderSet) (n : String) :
    (requireExactlyOne ans n).listAsReceived = ans.listAsReceived := by
  simp only [requireExactlyOne]
  split <;> rfl

theorem requireExactlyOne_warnings_mono (ans : HeaderSet) (n w : String)
    (hw : w ∈ ans.warnings) : w ∈ (requireExactlyOne ans n).warnings := by
  simp only [requireExactlyOne]
  split
  · exact List.mem_append_left _ hw
  · exact hw
  · exact List.mem_append_left _ hw

theorem requireExactlyOne_canonical_other (ans : HeaderSet) (n : String)
    (id : String) (h : id ≠ headerIDOf n) :
    (requireExactlyOne ans n).canonicalByID id = ans.canonicalByID id := by
  simp only [requireExactlyOne]
  split <;> simp [h]

theorem requireExactlyOne_canonical_self (ans : HeaderSet) (n : String) :
    (requireExactlyOne ans n).canonicalByID (headerIDOf n) =
      match ans.byHeaderID (headerIDOf n) with
      | [] => some ⟨n, .str "", some ("no " ++ n ++ " header found"), true⟩
      | [h] => some ⟨n, .obj h, none, false⟩
      | l =>
        some ⟨n, .str (jsonStringifyHeaders l),
              some (toString l.length ++ " " ++ n ++ " headers found"), true⟩ := by
  rcases hl : ans.byHeaderID (headerIDOf n) with _ | ⟨h1, _ | ⟨h2, t⟩⟩ <;>
    · simp only [requireExactlyOne]
      rw [hl]
      simp

theorem requireExactlyOne_warnings_missing (ans : HeaderSet) (n : String)
    (h : ans.byHeaderID (headerIDOf n) = []) :
    ("missing " ++ n ++ " header") ∈ (requireExactlyOne ans n).warnings := by
  simp only [requireExactlyOne]
  rw [h]
  simp

theorem requireExactlyOne_warnings_multi (ans : HeaderSet) (n : String)
    (h1 h2 : HeaderObject) (t : List HeaderObject)
    (h : ans.byHeaderID (headerIDOf n) = h1 :: h2 :: t) :
    (toString (h1 :: h2 :: t).length ++ " " ++ n ++ " headers found, only one allowed")
      ∈ (requireExactlyOne ans n).warnings := by
  simp only [requireExactlyOne]
  rw [h]
  simp

/-- C2, amended to what the code does: in every successful parse, for each
required-singular field (`From`, `Subject`, `Date`): zero instances yield a
canonical header with empty string value, warning `no <name> header found`,
`hasError`, and `missing <name> header` appended to the warnings list;
exactly one instance stores the raw header *object* (not its value string)
in the value slot, with no warning and no error; two or more instances
store the `JSON.stringify` of all instances (chronological order) in the
value slot — not an empty value and a separate `values` array — with
warning `<N> <name> headers found`, `hasError`, and
`<N> <name> headers found, only one allowed` appended to the warnings. -/
theorem c2_requireExactlyOne_behaviour :
    ∀ (source dir pfx : String) (hs : HeaderSet),
    parseSource source dir pfx = .ok hs →
    ∀ n : String, n = "From" ∨ n = "Subject" ∨ n = "Date" →
    (hs.byHeaderID (headerIDOf n) = [] →
      hs.canonicalByID (headerIDOf n)
        = some ⟨n, .str "", some ("no " ++ n ++ " header found"), true⟩ ∧
      ("missing " ++ n ++ " header") ∈ hs.warnings) ∧
    (∀ h1, hs.byHeaderID (headerIDOf n) = [h1] →
      hs.canonicalByID (headerIDOf n) = some ⟨n, .obj h1, none, false⟩) ∧
    (∀ h1 h2 t, hs.byHeaderID (headerIDOf n) = h1 :: h2 :: t →
      hs.canonicalByID (headerIDOf n)
        = some ⟨n, .str (jsonStringifyHeaders (h1 :: h2 :: t)),
                some (toString (h1 :: h2 :: t).length ++ " " ++ n ++ " headers found"),
                true⟩ ∧
      (toString (h1 :: h2 :: t).length ++ " " ++ n ++ " headers found, only one allowed")
        ∈ hs.warnings) := by
  intro source dir pfx hs hp n hn
  rw [parseSource] at hp
  cases hpre : parsePre source dir pfx with
  | error e =>
    rw [hpre] at hp
    simp [Except.map] at hp
  | ok b =>
    rw [hpre] at hp
    simp only [Except.map] at hp
    have hb : applyCanon b = hs := by
      cases hp
      rfl
    subst hb
    have hBy : (applyCanon b).byHeaderID = b.byHeaderID := by
      unfold applyCanon
      rw [requireExactlyOne_byHeaderID, requireExactlyOne_byHeaderID,
          requireExactlyOne_byHeaderID]
    rcases hn with rfl | rfl | rfl
    · -- n = "From": innermost requireExactlyOne
      have hcan : (applyCanon b).canonicalByID (headerIDOf "From")
          = (requireExactlyOne b "From").canonicalByID (headerIDOf "From") := by
        unfold applyCanon
        rw [requireExactlyOne_canonical_other _ "Date" _ (by decide),
            requireExactlyOne_canonical_other _ "Subject" _ (by decide)]
      refine ⟨?_, ?_, ?_⟩
      · intro hnil
        rw [hBy] at hnil
        constructor
        · rw [hcan, requireExactlyOne_canonical_self, hnil]
        · exact requireExactlyOne_warnings_mono _ "Date" _
            (requireExactlyOne_warnings_mono _ "Subject" _
              (requireExactlyOne_warnings_missing b "From" hnil))
      · intro h1 hone
        rw [hBy] at hone
        rw [hcan, requireExactlyOne_canonical_self, hone]
      · intro h1 h2 t hmul
        rw [hBy] at hmul
        constructor
        · rw [hcan, requireExactlyOne_canonical_self, hmul]
        · exact requireExactlyOne_warnings_mono _ "Date" _
            (requireExactlyOne_warnings_mono _ "Subject" _
              (requireExactlyOne_warnings_multi b "From" h1 h2 t hmul))
    · -- n = "Subject": middle requireExactlyOne
      have hcan : (applyCanon b).canonicalByID (headerIDOf "Subject")
          = (requireExactlyOne (requireExactlyOne b "From") "Subject").canonicalByID
              (headerIDOf "Subject") := by
        unfold applyCanon
        rw [requireExactlyOne_canonical_other _ "Date" _ (by decide)]
      refine ⟨?_, ?_, ?_⟩
      · intro hnil
        rw [hBy] at hnil
        have hnil' : (requireExactlyOne b "From").byHeaderID (headerIDOf "Subject") = [] := by
          rw [requireExactlyOne_byHeaderID]
          exact hnil
        constructor
        · rw [hcan, requireExactlyOne_canonical_self, requireExactlyOne_byHeaderID, hnil]
        · exact requireExactlyOne_warnings_mono _ "Date" _
            (requireExactlyOne_warnings_missing _ "Subject" hnil')
      · intro h1 hone
        rw [hBy] at hone
        rw [hcan, requireExactlyOne_canonical_self, requireExactlyOne_byHeaderID, hone]
      · intro h1 h2 t hmul
        rw [hBy] at hmul
        have hmul' : (requireExactlyOne b "From").byHeaderID (headerIDOf "Subject")
            = h1 :: h2 :: t := by
          rw [requireExactlyOne_byHeaderID]
          exact hmul
        constructor
        · rw [hcan, requireExactlyOne_canonical_self, requireExactlyOne_byHeaderID, hmul]
        · exact requireExactlyOne_warnings_mono _ "Date" _
            (requireExactlyOne_warnings_multi _ "Subject" h1 h2 t hmul')
    · -- n = "Date": outermost requireExactlyOne
      have hByID2 : (requireExactlyOne (requireExactlyOne b "From") "Subject").byHeaderID
          = b.byHeaderID := by
        rw [requireExactlyOne_byHeaderID, requireExactlyOne_byHeaderID]
      refine ⟨?_, ?_, ?_⟩
      · intro hnil
        rw [hBy] at hnil
        have hnil' : (requireExactlyOne (requireExactlyOne b "From") "Subject").byHeaderID
            (headerIDOf "Date") = [] := by
          rw [hByID2]
          exact hnil
        constructor
        · show (requireExactlyOne _ "Date").canonicalByID (headerIDOf "Date") = _
          rw [requireExactlyOne_canonical_self, hByID2, hnil]
        · exact requireExactlyOne_warnings_missing _ "Date" hnil'
      · intro h1 hone
        rw [hBy] at hone
        show (requireExactlyOne _ "Date").canonicalByID (headerIDOf "Date") = _
        rw [requireExactlyOne_canonical_self, hByID2, hone]
      · intro h1 h2 t hmul
        rw [hBy] at hmul
        have hmul' : (requireExactlyOne (requireExactlyOne b "From") "Subject").byHeaderID
            (headerIDOf "Date") = h1 :: h2 :: t := by
          rw [hByID2]
          exact hmul
        constructor
        · show (requireExactlyOne _ "Date").canonicalByID (headerIDOf "Date") = _
          rw [requireExactlyOne_canonical_self, hByID2, hmul]
        · exact requireExactlyOne_warnings_multi _ "Date" h1 h2 t hmul'

/-- Witness for C2 (amended): a parse with zero `From` instances yields the
missing-header canonical entry and warning. -/
theorem c2_requireExactlyOne_behaviour_witness :
    (getOk (parseSource "Subject: hi\nDate: d" "inbound" "x")).canonicalByID "from"
      = some ⟨"From", .str "", some "no From header found", true⟩ ∧
    "missing From header" ∈ (getOk (parseSource "Subject: hi\nDate: d" "inbound" "x")).warnings :=
  (c2_requireExactlyOne_behaviour "Subject: hi\nDate: d" "inbound" "x"
    (getOk (parseSource "Subject: hi\nDate: d" "inbound" "x")) rfl
    "From" (Or.inl rfl)).1 (by decide)

/-!
## Lemmas: character case for header identities
-/

theorem char_eq_of_toNat_eq {c d : Char} (h : c.toNat = d.toNat) : c = d := by
  apply Char.eq_of_val_eq
  apply UInt32.ext
  simpa [UInt32.toNat] using h

theorem charLe_iff (a b : Char) : a ≤ b ↔ a.toNat ≤ b.toNat := by
  constructor <;> intro h
  · simpa [Char.le_def, UInt32.le_def, UInt32.toNat] using h
  · simpa [Char.le_def, UInt32.le_def, UInt32.toNat] using h

theorem charOfNat_toNat {n : Nat} (h : n < 55296) : (Char.ofNat n).toNat = n := by
  unfold Char.ofNat
  rw [dif_pos (Or.inl h)]
  simp [Char.ofNatAux, Char.toNat, UInt32.toNat, UInt32.ofNatCore]

theorem toNat_lowC (c : Char) :
    (lowC c).toNat = if 65 ≤ c.toNat ∧ c.toNat ≤ 90 then c.toNat + 32 else c.toNat := by
  unfold lowC
  by_cases h : 65 ≤ c.toNat ∧ c.toNat ≤ 90
  · have hb : ('A' ≤ c && c ≤ 'Z') = true := by
      rw [Bool.and_eq_true]
      exact ⟨decide_eq_true (charLe_iff 'A' c |>.mpr h.1),
             decide_eq_true (charLe_iff c 'Z' |>.mpr h.2)⟩
    rw [if_pos hb, if_pos h]
    exact charOfNat_toNat (by omega)
  · have hb : ('A' ≤ c && c ≤ 'Z') = false := by
      rw [Bool.eq_false_iff]
      intro habs
      rw [Bool.and_eq_true] at habs
      exact h ⟨charLe_iff 'A' c |>.mp (of_decide_eq_true habs.1),
               charLe_iff c 'Z' |>.mp (of_decide_eq_true habs.2)⟩
    rw [hb, if_neg h]
    simp

theorem charEq_dash_iff (c : Char) : c = '-' ↔ c.toNat = 45 :=
  ⟨fun h => congrArg Char.toNat h, fun h => char_eq_of_toNat_eq h⟩

theorem isHeaderNameChar_iff (c : Char) :
    isHeaderNameChar c = true ↔
      (c.toNat = 45 ∨ (97 ≤ c.toNat ∧ c.toNat ≤ 122) ∨
       (65 ≤ c.toNat ∧ c.toNat ≤ 90) ∨ (48 ≤ c.toNat ∧ c.toNat ≤ 57)) := by
  unfold isHeaderNameChar
  simp only [Bool.or_eq_true, Bool.and_eq_true, decide_eq_true_eq, charLe_iff,
    charEq_dash_iff,
    show Char.toNat 'a' = 97 from rfl, show Char.toNat 'z' = 122 from rfl,
    show Char.toNat 'A' = 65 from rfl, show Char.toNat 'Z' = 90 from rfl,
    show Char.toNat '0' = 48 from rfl, show Char.toNat '9' = 57 from rfl]
  tauto

theorem lowC_preserves_class {a b : Char} (ha : isHeaderNameChar a = true)
    (hab : lowC a = lowC b) : isHeaderNameChar b = true := by
  have h1 := congrArg Char.toNat hab
  rw [toNat_lowC, toNat_lowC] at h1
  rw [isHeaderNameChar_iff] at ha ⊢
  split_ifs at h1 <;> omega

theorem all_class_of_map_lowC : ∀ (as bs : List Char),
    as.all isHeaderNameChar = true → as.map lowC = bs.map lowC →
    bs.all isHeaderNameChar = true := by
  intro as
  induction as with
  | nil =>
    intro bs _ h
    cases bs with
    | nil => rfl
    | cons b bs => simp at h
  | cons a as ih =>
    intro bs ha h
    cases bs with
    | nil => simp at h
    | cons b bs =>
      simp only [List.map_cons, List.cons.injEq] at h
      simp only [List.all_cons, Bool.and_eq_true] at ha ⊢
      exact ⟨lowC_preserves_class ha.1 h.1, ih bs ha.2 h.2⟩

/-- C3, counterexample: the identity normalization is *not* invariant under
writing dashes as underscores as input — `headerNameToID("content_type")`
is not defined: `isHeaderName` admits only `[-a-z0-9]` (no underscore), so
the call throws a `RangeError`, while both dash-spelled casings are defined
and agree. -/
theorem c3_counterexample_underscore_rejected :
    headerNameToID "content_type" = .error .rangeError ∧
    headerNameToID "Content-Type" = .ok "content_type" ∧
    headerNameToID "CONTENT-TYPE" = .ok "content_type" :=
  ⟨rfl, rfl, rfl⟩

/-- C3, amended: header identity is invariant under letter case — any two
valid header names that agree after lowercasing get the same defined
identity — and in particular the two dash-spelled casings of Content-Type
both map to `content_type`; but an input already written with underscores
is rejected by the header-name validation rather than normalized (see the
counterexample). -/
theorem c3_identity_case_invariant :
    (∀ s t : String, isHeaderName s = true →
      s.data.map lowC = t.data.map lowC →
      isHeaderName t = true ∧
      headerNameToID s = .ok (headerIDOf s) ∧
      headerNameToID t = .ok (headerIDOf s) ∧
      headerNameToID s = headerNameToID t) ∧
    headerNameToID "Content-Type" = .ok "content_type" ∧
    headerNameToID "CONTENT-TYPE" = .ok "content_type" := by
  constructor
  · intro s t hs hmap
    have hs' : (!s.data.isEmpty) = true ∧ s.data.all isHeaderNameChar = true := by
      have h0 := hs
      unfold isHeaderName at h0
      rw [Bool.and_eq_true] at h0
      exact h0
    have hallt : t.data.all isHeaderNameChar = true :=
      all_class_of_map_lowC _ _ hs'.2 hmap
    have hlen : s.data.length = t.data.length := by
      have := congrArg List.length hmap
      simpa using this
    have hnet : (!t.data.isEmpty) = true := by
      cases hts : t.data with
      | cons c r => simp
      | nil =>
        rw [hts] at hlen
        cases hss : s.data with
        | nil => rw [hss] at hs'; simp at hs'
        | cons c r => rw [hss] at hlen; simp at hlen
    have ht : isHeaderName t = true := by
      unfold isHeaderName
      rw [Bool.and_eq_true]
      exact ⟨hnet, hallt⟩
    have hid : headerIDOf s = headerIDOf t := by
      unfold headerIDOf
      rw [hmap]
    refine ⟨ht, ?_, ?_, ?_⟩
    · unfold headerNameToID
      rw [if_pos hs]
    · unfold headerNameToID
      rw [if_pos ht, ← hid]
    · unfold headerNameToID
      rw [if_pos hs, if_pos ht, hid]
  · exact ⟨rfl, rfl⟩

/-- Witness for C3 (amended): the two casings of Content-Type are valid,
agree after lowercasing, and receive the same identity. -/
theorem c3_identity_case_invariant_witness :
    isHeaderName "Content-Type" = true ∧
    ("Content-Type" : String).data.map lowC = ("CONTENT-TYPE" : String).data.map lowC ∧
    headerNameToID "Content-Type" = headerNameToID "CONTENT-TYPE" :=
  ⟨by decide, by decide,
    (c3_identity_case_invariant.1 "Content-Type" "CONTENT-TYPE"
      (by decide) (by decide)).2.2.2⟩

/-!
## Lemmas: CRLF invariance of the tokenizer

Splitting a CRLF-rendered source on `'\n'` yields the LF lines with a
trailing `'\r'` on all but the last; the scanner treats each such line
exactly like its LF original, because the value capture `(.*)` stops at a
LineTerminator, continuation lines are trimmed, and `'\r'` is whitespace
to the blank-line test.
-/

theorem takeWhile_append_one_neg {p : Char → Bool} {c : Char} (h : p c = false) :
    ∀ l : List Char, (l ++ [c]).takeWhile p = l.takeWhile p := by
  intro l
  induction l with
  | nil => simp [List.takeWhile_cons, h]
  | cons a r ih =>
    by_cases ha : p a = true
    · simp [List.takeWhile_cons, ha, ih]
    · have ha' : p a = false := by simpa using ha
      simp [List.takeWhile_cons, ha']

theorem trimRight_append_ws {c : Char} (h : isWS c = true) :
    ∀ l : List Char, trimRight (l ++ [c]) = trimRight l := by
  intro l
  induction l with
  | nil => simp [trimRight, h]
  | cons a r ih =>
    show trimRight (a :: (r ++ [c])) = trimRight (a :: r)
    unfold trimRight
    rw [ih]

theorem jsTrimList_append_ws {c : Char} (h : isWS c = true) (l : List Char) :
    jsTrimList (l ++ [c]) = jsTrimList l := by
  unfold jsTrimList
  rw [List.dropWhile_append]
  by_cases he : (l.dropWhile isWS).isEmpty = true
  · have h0 : l.dropWhile isWS = [] := by simpa using he
    rw [if_pos he, h0]
    simp [List.dropWhile_cons, h, trimRight]
  · have he' : (l.dropWhile isWS).isEmpty = false := by simpa using he
    rw [he']
    simp only [Bool.false_eq_true, if_false]
    exact trimRight_append_ws h _
  
theorem jsTrimList_wsLead {p : List Char} (hp : p.all isWS = true)
    (l : List Char) : jsTrimList (p ++ l) = jsTrimList l := by
  unfold jsTrimList
  rw [List.dropWhile_append]
  have h0 : p.dropWhile isWS = [] := by
    rw [List.dropWhile_eq_nil_iff]
    intro x hx
    exact List.all_eq_true.mp hp x hx
  rw [h0]
  simp

theorem splitNL_ne_nil : ∀ l : List Char, splitNL l ≠ [] := by
  intro l
  cases l with
  | nil => simp [splitNL]
  | cons c rest =>
    unfold splitNL
    by_cases hc : c = '\n'
    · simp [hc]
    · simp only [hc, if_neg, Bool.false_eq_true]
      cases h : splitNL rest <;> simp

theorem crlf_ne_nil : ∀ l : List Char, l ≠ [] → crlf l ≠ [] := by
  intro l hl
  cases l with
  | nil => exact absurd rfl hl
  | cons c rest =>
    unfold crlf
    by_cases hc : c = '\n' <;> simp [hc]

theorem splitNL_crlf : ∀ l : List Char,
    splitNL (crlf l) = mapInitCR (splitNL l) := by
  intro l
  induction l with
  | nil => rfl
  | cons c rest ih =>
    by_cases hc : c = '\n'
    · subst hc
      show splitNL ('\r' :: '\n' :: crlf rest) = mapInitCR ([] :: splitNL rest)
      have h1 : splitNL ('\r' :: '\n' :: crlf rest) = ['\r'] :: splitNL (crlf rest) := by
        show (match splitNL ('\n' :: crlf rest) with
              | [] => [['\r']]
              | h :: t => ('\r' :: h) :: t) = ['\r'] :: splitNL (crlf rest)
        rw [show splitNL ('\n' :: crlf rest) = [] :: splitNL (crlf rest) from rfl]
      rw [h1, ih]
      cases hs : splitNL rest with
      | nil => exact absurd hs (splitNL_ne_nil rest)
      | cons s0 s1 => rfl
    · have hcr : crlf (c :: rest) = c :: crlf rest := by
        show (if c = '\n' then ['\r', '\n'] else [c]) ++ crlf rest = c :: crlf rest
        rw [if_neg hc]
        rfl
      have h1 : ∀ x : List Char, splitNL (c :: x) =
          match splitNL x with
          | [] => [[c]]
          | h :: t => (c :: h) :: t := by
        intro x
        show (if c = '\n' then [] :: splitNL x
              else
                match splitNL x with
                | [] => [[c]]
                | h :: t => (c :: h) :: t) = _
        rw [if_neg hc]
      rw [hcr, h1, h1, ih]
      cases hs : splitNL rest with
      | nil => exact absurd hs (splitNL_ne_nil rest)
      | cons s0 s1 =>
        cases s1 with
        | nil => rfl
        | cons q0 q1 => rfl

theorem dropWhileWS_crlf_comm : ∀ l : List Char,
    (crlf l).dropWhile isWS = crlf (l.dropWhile isWS) := by
  intro l
  induction l with
  | nil => rfl
  | cons c rest ih =>
    by_cases hc : c = '\n'
    · subst hc
      show ('\r' :: '\n' :: crlf rest).dropWhile isWS = crlf (('\n' :: rest).dropWhile isWS)
      rw [List.dropWhile_cons_of_pos (by decide), List.dropWhile_cons_of_pos (by decide),
          List.dropWhile_cons_of_pos (by decide)]
      exact ih
    · have hcr : crlf (c :: rest) = c :: crlf rest := by
        show (if c = '\n' then ['\r', '\n'] else [c]) ++ crlf rest = c :: crlf rest
        rw [if_neg hc]
        rfl
      rw [hcr]
      by_cases hw : isWS c = true
      · rw [List.dropWhile_cons_of_pos hw, List.dropWhile_cons_of_pos hw]
        exact ih
      · have hw' : ¬ (isWS c = true) := hw
        rw [List.dropWhile_cons_of_neg hw', List.dropWhile_cons_of_neg hw', hcr]

theorem trimRight_crlf_comm : ∀ l : List Char,
    trimRight (crlf l) = crlf (trimRight l) := by
  intro l
  induction l with
  | nil => rfl
  | cons c rest ih =>
    by_cases hc : c = '\n'
    · subst hc
      show trimRight ('\r' :: '\n' :: crlf rest) = crlf (trimRight ('\n' :: rest))
      have hstep : trimRight ('\n' :: rest) =
          match trimRight rest with
          | [] => if isWS '\n' then [] else ['\n']
          | r => '\n' :: r := rfl
      cases htr : trimRight rest with
      | nil =>
        have hinner : trimRight (crlf rest) = [] := by
          rw [ih, htr]
          rfl
        have h2 : trimRight ('\n' :: crlf rest) = [] := by
          show (match trimRight (crlf rest) with
                | [] => if isWS '\n' then [] else ['\n']
                | r => '\n' :: r) = []
          rw [hinner]
          decide
        have h3 : trimRight ('\r' :: '\n' :: crlf rest) = [] := by
          show (match trimRight ('\n' :: crlf rest) with
                | [] => if isWS '\r' then [] else ['\r']
                | r => '\r' :: r) = []
          rw [h2]
          decide
        rw [h3, hstep, htr]
        show ([] : List Char) = crlf (if isWS '\n' then [] else ['\n'])
        decide
      | cons r0 r1 =>
        have hinner : trimRight (crlf rest) = crlf (r0 :: r1) := by
          rw [ih, htr]
        have hne : crlf (r0 :: r1) ≠ [] := crlf_ne_nil _ (by simp)
        have h2 : trimRight ('\n' :: crlf rest) = '\n' :: crlf (r0 :: r1) := by
          show (match trimRight (crlf rest) with
                | [] => if isWS '\n' then [] else ['\n']
                | r => '\n' :: r) = '\n' :: crlf (r0 :: r1)
          rw [hinner]
          cases hcr : crlf (r0 :: r1) with
          | nil => exact absurd hcr hne
          | cons x xs => rfl
        have h3 : trimRight ('\r' :: '\n' :: crlf rest) = '\r' :: '\n' :: crlf (r0 :: r1) := by
          show (match trimRight ('\n' :: crlf rest) with
                | [] => if isWS '\r' then [] else ['\r']
                | r => '\r' :: r) = '\r' :: '\n' :: crlf (r0 :: r1)
          rw [h2]
        rw [h3, hstep, htr]
        rfl
    · have hcr : crlf (c :: rest) = c :: crlf rest := by
        show (if c = '\n' then ['\r', '\n'] else [c]) ++ crlf rest = c :: crlf rest
        rw [if_neg hc]
        rfl
      rw [hcr]
      have hstep : trimRight (c :: rest) =
          match trimRight rest with
          | [] => if isWS c then [] else [c]
          | r => c :: r := rfl
      cases htr : trimRight rest with
      | nil =>
        have hinner : trimRight (crlf rest) = [] := by
          rw [ih, htr]
          rfl
        have h2 : trimRight (c :: crlf rest) = if isWS c then [] else [c] := by
          show (match trimRight (crlf rest) with
                | [] => if isWS c then [] else [c]
                | r => c :: r) = if isWS c then [] else [c]
          rw [hinner]
        rw [h2, hstep, htr]
        by_cases hw : isWS c = true
        · rw [if_pos hw]
          rfl
        · rw [if_neg hw]
          show [c] = (if c = '\n' then ['\r', '\n'] else [c]) ++ crlf []
          rw [if_neg hc]
          rfl
      | cons r0 r1 =>
        have hinner : trimRight (crlf rest) = crlf (r0 :: r1) := by
          rw [ih, htr]
        have hne : crlf (r0 :: r1) ≠ [] := crlf_ne_nil _ (by simp)
        have h2 : trimRight (c :: crlf rest) = c :: crlf (r0 :: r1) := by
          show (match trimRight (crlf rest) with
                | [] => if isWS c then [] else [c]
                | r => c :: r) = c :: crlf (r0 :: r1)
          rw [hinner]
          cases hcr2 : crlf (r0 :: r1) with
          | nil => exact absurd hcr2 hne
          | cons x xs => rfl
        rw [h2, hstep, htr]
        show c :: crlf (r0 :: r1) = (if c = '\n' then ['\r', '\n'] else [c]) ++ crlf (r0 :: r1)
        rw [if_neg hc]
        rfl

theorem jsTrimList_crlf_comm (l : List Char) :
    jsTrimList (crlf l) = crlf (jsTrimList l) := by
  unfold jsTrimList
  rw [dropWhileWS_crlf_comm, trimRight_crlf_comm]

theorem isBlankLine_append_cr (l : List Char) :
    isBlankLine (l ++ ['\r']) = isBlankLine l := by
  unfold isBlankLine
  rw [List.all_append, show (['\r'].all isWS) = true from by decide]
  simp

theorem headStartsWord_append_cr (l : List Char) :
    headStartsWord (l ++ ['\r']) = headStartsWord l := by
  cases l with
  | nil => decide
  | cons c rest => rfl

theorem valueCapture_append_cr (rest : List Char) :
    (dropOneSpace (rest ++ ['\r'])).takeWhile notLineTerm
      = (dropOneSpace rest).takeWhile notLineTerm := by
  cases rest with
  | nil => decide
  | cons r0 r2 =>
    by_cases hr : r0 = ' '
    · subst hr
      show (r2 ++ ['\r']).takeWhile notLineTerm = r2.takeWhile notLineTerm
      exact takeWhile_append_one_neg (by decide) r2
    · have hgen : ∀ x : List Char, dropOneSpace (r0 :: x) = r0 :: x := by
        intro x
        unfold dropOneSpace
        split
        · rename_i r heq
          injection heq with h1 h2
          exact absurd h1 hr
        · rfl
      have h1 : dropOneSpace ((r0 :: r2) ++ ['\r']) = (r0 :: r2) ++ ['\r'] :=
        hgen (r2 ++ ['\r'])
      have h2 : dropOneSpace (r0 :: r2) = r0 :: r2 := hgen r2
      rw [h1, h2]
      exact takeWhile_append_one_neg (by decide) (r0 :: r2)

theorem headerLineMatch_append_cr (l : List Char) :
    headerLineMatch (l ++ ['\r']) = headerLineMatch l := by
  unfold headerLineMatch
  rw [takeWhile_append_one_neg (by decide) l, List.dropWhile_append]
  by_cases he : (l.dropWhile isNameValueChar).isEmpty = true
  · have h0 : l.dropWhile isNameValueChar = [] := by simpa using he
    rw [if_pos he, h0]
    show (match ['\r'].dropWhile isNameValueChar with
          | d :: rest =>
            if d = ':' then
              if (l.takeWhile isNameValueChar).isEmpty then none
              else some (l.takeWhile isNameValueChar,
                          (dropOneSpace rest).takeWhile notLineTerm)
            else none
          | [] => none) = none
    rw [show ['\r'].dropWhile isNameValueChar = ['\r'] from by decide]
    simp
  · have he' : (l.dropWhile isNameValueChar).isEmpty = false := by simpa using he
    rw [he']
    simp only [Bool.false_eq_true, if_false]
    cases hd : l.dropWhile isNameValueChar with
    | nil => rw [hd] at he'; simp at he'
    | cons d rest =>
      show (match d :: (rest ++ ['\r']) with
            | d :: rest =>
              if d = ':' then
                if (l.takeWhile isNameValueChar).isEmpty then none
                else some (l.takeWhile isNameValueChar,
                            (dropOneSpace rest).takeWhile notLineTerm)
              else none
            | [] => none) =
           (match d :: rest with
            | d :: rest =>
              if d = ':' then
                if (l.takeWhile isNameValueChar).isEmpty then none
                else some (l.takeWhile isNameValueChar,
                            (dropOneSpace rest).takeWhile notLineTerm)
              else none
            | [] => none)
      by_cases hdc : d = ':'
      · simp only [hdc, if_pos]
        by_cases hnm : (l.takeWhile isNameValueChar).isEmpty = true
        · simp [hnm]
        · have hnm' : (l.takeWhile isNameValueChar).isEmpty = false := by simpa using hnm
          simp only [hnm', Bool.false_eq_true, if_false]
          rw [valueCapture_append_cr rest]
      · simp [hdc]

theorem tokHeaders_mapInitCR : ∀ (lines : List (List Char)) (wip : HeaderObject)
    (acc : List HeaderObject),
    tokHeaders (mapInitCR lines) wip acc = tokHeaders lines wip acc := by
  intro lines
  induction lines with
  | nil => intro wip acc; rfl
  | cons l rest ih =>
    intro wip acc
    cases rest with
    | nil => rfl
    | cons l2 t =>
      show tokHeaders ((l ++ ['\r']) :: mapInitCR (l2 :: t)) wip acc
          = tokHeaders (l :: l2 :: t) wip acc
      by_cases hb : isBlankLine l = true
      · have hb2 : isBlankLine (l ++ ['\r']) = true := by
          rw [isBlankLine_append_cr]
          exact hb
        simp only [tokHeaders, hb, hb2, if_true]
      · have hbf : isBlankLine l = false := by simpa using hb
        have hb2 : isBlankLine (l ++ ['\r']) = false := by
          rw [isBlankLine_append_cr]
          exact hbf
        cases l with
        | nil => simp [isBlankLine] at hbf
        | cons c ls =>
          simp only [tokHeaders, hbf, hb2, Bool.false_eq_true, if_false]
          rw [show headStartsWord ((c :: ls) ++ ['\r']) = headStartsWord (c :: ls) from rfl,
              show headStartsWS ((c :: ls) ++ ['\r']) = headStartsWS (c :: ls) from rfl,
              headerLineMatch_append_cr,
              show (⟨jsTrimList ((c :: ls) ++ ['\r'])⟩ : String) = ⟨jsTrimList (c :: ls)⟩
                from congrArg _ (jsTrimList_append_ws (by decide) (c :: ls))]
          by_cases hw : headStartsWord (c :: ls) = true
          · simp only [hw, if_true]
            cases hsw : storeWIP acc wip with
            | mk acc2 wip2 =>
              cases hm : headerLineMatch (c :: ls) with
              | none => exact ih wip2 acc2
              | some p =>
                cases p with
                | mk nm v =>
                  by_cases hn : isHeaderName ⟨nm⟩ = true
                  · simp only [hn, if_true]
                    exact ih _ _
                  · have hn' : isHeaderName ⟨nm⟩ = false := by simpa using hn
                    simp only [hn', Bool.false_eq_true, if_false]
                    exact ih _ _
          · have hw' : headStartsWord (c :: ls) = false := by simpa using hw
            simp only [hw', Bool.false_eq_true, if_false]
            by_cases hws : headStartsWS (c :: ls) = true
            · simp only [hws, if_true]
              exact ih _ _
            · have hws' : headStartsWS (c :: ls) = false := by simpa using hws
              simp only [hws', Bool.false_eq_true, if_false]
              exact ih _ _

theorem whileHeaderLinesGtZero_mapInitCR (lines : List (List Char)) :
    whileHeaderLinesGtZero (mapInitCR lines) = whileHeaderLinesGtZero lines := by
  cases lines with
  | nil => rfl
  | cons l rest =>
    cases rest with
    | nil => rfl
    | cons l2 t => cases t <;> rfl

theorem parseSource_eq_of_lines (s1 s2 dir pfx : String)
    (hw : whileHeaderLinesGtZero (splitNL (jsTrim s1).data)
        = whileHeaderLinesGtZero (splitNL (jsTrim s2).data))
    (ht : tokenize (splitNL (jsTrim s1).data) = tokenize (splitNL (jsTrim s2).data)) :
    parseSource s1 dir pfx = parseSource s2 dir pfx := by
  simp only [parseSource, parsePre]
  rw [hw, ht]

/-- C5: tokenizer input normalization holds.  Re-rendering any LF source
with CRLF line endings parses to the *same* result: the discarded
`replace` at line 303 is inconsequential because the stray `'\r'` each
line then carries is outside the `(.*)` value capture (a regex `.` cannot
match a LineTerminator), is trimmed from folded continuation lines, and is
whitespace to the blank-line test.  Likewise any run of leading blank
lines (here: newlines) is discarded by the `trim()` at line 302 before
header scanning, so blank lines followed by headers parse to those
headers. -/
theorem c5_tokenizer_normalization :
    (∀ source dir pfx : String,
      parseSource ⟨crlf source.data⟩ dir pfx = parseSource source dir pfx) ∧
    (∀ (k : Nat) (source dir pfx : String),
      parseSource ⟨List.replicate k '\n' ++ source.data⟩ dir pfx
        = parseSource source dir pfx) ∧
    crlf "A: aaa\nB: bbb".data = "A: aaa\r\nB: bbb".data ∧
    (getOk (parseSource "A: aaa\r\nB: bbb" "inbound" "x")).listAsReceived
      = [⟨"A", "aaa"⟩, ⟨"B", "bbb"⟩] ∧
    (getOk (parseSource "A: aaa\nB: bbb" "inbound" "x")).listAsReceived
      = [⟨"A", "aaa"⟩, ⟨"B", "bbb"⟩] ∧
    (getOk (parseSource "\n\nA: aaa" "inbound" "x")).listAsReceived
      = [⟨"A", "aaa"⟩] := by
  refine ⟨?_, ?_, by decide, by decide, by decide, by decide⟩
  · intro s dir pfx
    have hl : splitNL (jsTrim ⟨crlf s.data⟩).data = mapInitCR (splitNL (jsTrim s).data) := by
      show splitNL (jsTrimList (crlf s.data)) = _
      rw [jsTrimList_crlf_comm]
      exact splitNL_crlf _
    apply parseSource_eq_of_lines
    · rw [hl, whileHeaderLinesGtZero_mapInitCR]
    · rw [hl]
      exact tokHeaders_mapInitCR _ _ _
  · intro k s dir pfx
    have hp : (List.replicate k '\n').all isWS = true := by
      rw [List.all_eq_true]
      intro x hx
      rw [List.eq_of_mem_replicate hx]
      decide
    have htr : jsTrim ⟨List.replicate k '\n' ++ s.data⟩ = jsTrim s := by
      show (⟨jsTrimList (List.replicate k '\n' ++ s.data)⟩ : String) = ⟨jsTrimList s.data⟩
      rw [jsTrimList_wsLead hp]
    apply parseSource_eq_of_lines <;> rw [htr]
